import Mathlib

/-!
Verification of the lasagnelang core: the parser (parser/src/parser.rs) and the
tree-walking evaluator (interpreter/src/eval/evaluator.rs), embedded shallowly.

The lexer (`LexedTokens`), the `Token`/`Precedence` types, the AST rendering and
the error enums are not among the available sources; they are modelled from the
spec (sections 2, 3, 4.1, 4.2, 4.5, 6) and their doc comments say so.  The
parser is embedded with an explicit fuel argument so that every definition is
structurally recursive and computes by `rfl`; fuel exhaustion is the `none`
outcome, and a separate development (for the termination claim) shows that the
remaining token stream shrinks strictly at each statement, which is the measure
that makes the Rust loops terminate.

Rust panics (the `todo!()` arms of the evaluator, division by zero, arithmetic
overflow of `/` and debug-mode overflow) have no value in `Result`; they are
modelled by the distinguished outcome `interp.EvalOutcome.fault`.  Wrapping
two's-complement arithmetic (release-mode `i32`) is modelled by `interp.wrap32`.
-/

/-- Token kinds.  Modelled from the spec: the lexer and its `Token` type are not
among the sources; these are exactly the kinds the parser matches on (spec
sections 3 and 6: keywords, identifier, integer literal with its raw text,
operators and punctuation).  `Lasagna` is the block terminator `~`. -/
inductive Token where
| Return
| Ident (literal : String)
| Int (literal : String)
| Assign
| Period
| Comma
| LParen
| RParen
| Bang
| Minus
| Plus
| Multiply
| DividedBy
| LessThan
| GreaterThan
| Equals
| NotEquals
| If
| Else
| Func
| True
| False
| Lasagna
deriving DecidableEq

/-- The closed operator enumeration of ast.rs (spec section 3; the variants are
the ones parser.rs and evaluator.rs construct and match). -/
inductive Operator where
| Plus
| Minus
| Multiply
| DividedBy
| LessThan
| GreaterThan
| Equals
| NotEquals
| Bang
deriving DecidableEq

/-- `Identifier(String)` of ast.rs: a plain name string, equality by value. -/
structure Identifier where
  name : String
deriving DecidableEq

/-- Binding powers, low to high.  Modelled from the spec (section 4.1):
`Lowest < Equals/NotEquals < LessThan/GreaterThan < Plus/Minus <
Multiply/DividedBy < Prefix (unary) < Call`.  The source's `Precedence::Prefix`
is named `PrefixOp` here (Lean lint constraint on the identifier). -/
inductive Precedence where
| Lowest
| Equals
| LessGreater
| Sum
| Product
| PrefixOp
| Call
deriving DecidableEq

/-- Numeric rank of a precedence level, realising the declaration order that
Rust's derived `PartialOrd` compares by. -/
def Precedence.toNat : Precedence → Nat
| .Lowest => 0
| .Equals => 1
| .LessGreater => 2
| .Sum => 3
| .Product => 4
| .PrefixOp => 5
| .Call => 6

/-- Boolean strict order on precedences (Rust `precedence < ...`). -/
def precLt (a b : Precedence) : Bool := Nat.blt a.toNat b.toNat

/-- `Token::has_infix` (spec: which tokens carry an infix meaning, and which
`Operator` they denote).  `HasInfix::Yes(op)` is `some op`, `HasInfix::No` is
`none`.  Named with an `_operator` suffix for a Lean lint constraint. -/
def has_infix_operator : Token → Option Operator
| Token.Plus => some Operator.Plus
| Token.Minus => some Operator.Minus
| Token.Multiply => some Operator.Multiply
| Token.DividedBy => some Operator.DividedBy
| Token.LessThan => some Operator.LessThan
| Token.GreaterThan => some Operator.GreaterThan
| Token.Equals => some Operator.Equals
| Token.NotEquals => some Operator.NotEquals
| _ => none

/-- `Token::get_precedence` per the spec's precedence table (section 4.1). -/
def get_precedence : Token → Precedence
| Token.Equals => Precedence.Equals
| Token.NotEquals => Precedence.Equals
| Token.LessThan => Precedence.LessGreater
| Token.GreaterThan => Precedence.LessGreater
| Token.Plus => Precedence.Sum
| Token.Minus => Precedence.Sum
| Token.Multiply => Precedence.Product
| Token.DividedBy => Precedence.Product
| _ => Precedence.Lowest

mutual

/-- AST expressions of ast.rs (spec section 3).  `Call` never appears: parser.rs
never constructs one, so the variant is omitted from this embedding of the
parser's output type. -/
inductive Expression where
| IdentifierLiteral (ident : Identifier)
| IntegerLiteral (value : Int)
| BooleanLiteral (value : Bool)
| PrefixExpression (operator : Operator) (right : Expression)
| InfixExpression (left : Expression) (operator : Operator) (right : Expression)
| IfExpression (condition : Expression) (consequence : BlockStatement)
    (alternative : Option BlockStatement)
| FunctionLiteral (parameters : List Identifier) (body : BlockStatement)

/-- AST statements of ast.rs (spec section 3). -/
inductive Statement where
| AssignStatement (ident : Identifier) (value : Expression)
| ReturnStatement (value : Expression)
| ExpressionStatement (value : Expression)

/-- An ordered sequence of statements (function bodies, if/else branches). -/
inductive BlockStatement where
| mk (statements : List Statement)

end

/-- Field accessor for `BlockStatement`. -/
def BlockStatement.statements : BlockStatement → List Statement
| .mk ss => ss

/-- `TokenExpectation` of parse_errors.rs (shape as used by parser.rs). -/
inductive TokenExpectation where
| SingleExpectation (t : Token)
| MultipleExpectation (ts : List Token)
deriving DecidableEq

/-- `ParseError` of parse_errors.rs, with the variants parser.rs emits (spec
section 4.1 error taxonomy).  `ParseIntegerError` drops the Rust
`ParseIntError` cause and keeps the offending token. -/
inductive ParseError where
| ExpectedToken
| UnexpectedToken (expected : TokenExpectation) (found : Option Token)
| NoPrefixExpression (t : Token)
| NoInfixExpression (t : Token)
| ParseIntegerError (t : Token)
| NoPrefixPartner
deriving DecidableEq

/-- `Program`: ordered statements plus ordered accumulated parse errors. -/
structure Program where
  statements : List Statement
  parse_errors : List ParseError

/- Token-stream operations.  Modelled from the spec (section 2): the stream
offers lookahead-1 peek, consume, expect-or-fail, and resynchronisation to the
next statement boundary.  The cursor is the remaining list of tokens. -/

/-- `LexedTokens::expect`: consume the next token or fail with `ExpectedToken`.
Modelled from the spec (section 2, section 4.1 error taxonomy). -/
def expect : List Token → Except ParseError Token × List Token
| [] => (.error ParseError.ExpectedToken, [])
| t :: rest => (.ok t, rest)

/-- `LexedTokens::expect_peek`: require a specific next token, consuming it when
it matches.  Modelled from the spec; a missing stream reports the expectation
with `found = none` (section 4.1). -/
def expect_peek (t : Token) : List Token → Except ParseError Unit × List Token
| [] => (.error (ParseError.UnexpectedToken (TokenExpectation.SingleExpectation t) none), [])
| x :: rest =>
  if x = t then (.ok (), rest)
  else (.error (ParseError.UnexpectedToken (TokenExpectation.SingleExpectation t) (some x)), x :: rest)

/-- `LexedTokens::optional_expect_peek`: consume the next token when it is the
given one, otherwise do nothing.  Modelled from the spec (trailing statement
terminator is optional for expression statements, section 4.1). -/
def optional_expect_peek (t : Token) : List Token → List Token
| [] => []
| x :: rest => if x = t then rest else x :: rest

/-- `LexedTokens::iterate_to_next_statement`: discard tokens up to and including
the next statement boundary (the period).  Modelled from the spec (section 2:
"a resynchronization operation that discards tokens up to the next statement
boundary"; section 9: "a simple scan-forward-to-terminator strategy"). -/
def iterate_to_next_statement : List Token → List Token
| [] => []
| Token.Period :: rest => rest
| _ :: rest => iterate_to_next_statement rest

/-- `LexedTokens::next_token_is`: lookahead-1 comparison, false on an exhausted
stream.  Modelled from the spec (section 2). -/
def next_token_is (ts : List Token) (t : Token) : Bool :=
  match ts with
  | x :: _ => decide (x = t)
  | [] => false

/-- `LexedTokens::next_token_has_infix`: does the next token carry an infix
meaning?  Modelled from the spec (section 4.1 loop guard).  Named with an
`_operator` suffix for a Lean lint constraint. -/
def next_token_has_infix_operator (ts : List Token) : Bool :=
  match ts with
  | x :: _ => (has_infix_operator x).isSome
  | [] => false

/-- `LexedTokens::next_token_precedence`: precedence of the next token,
`Lowest` when the stream is exhausted.  Modelled from the spec (section 4.1). -/
def next_token_precedence (ts : List Token) : Precedence :=
  match ts with
  | x :: _ => get_precedence x
  | [] => Precedence.Lowest

/-- Value of a list of decimal digit characters, most significant first;
`none` when a non-digit appears. -/
def digitsVal : List Char → Nat → Option Nat
| [], acc => some acc
| c :: cs, acc =>
  if c.isDigit then digitsVal cs (acc * 10 + (c.toNat - 48)) else none

/-- Rust `str::parse::<i32>` on an integer-literal text: optional leading minus,
decimal digits, result range-checked to `i32`; `none` is `ParseIntError`
(e.g. overflow).  Modelled from the spec (section 4.1: "integer literal failed
numeric parsing, e.g. overflow"). -/
def parseI32 (s : String) : Option Int :=
  match s.data with
  | [] => none
  | '-' :: cs =>
    match cs with
    | [] => none
    | _ =>
      match digitsVal cs 0 with
      | some n => if n ≤ 2 ^ 31 then some (-(n : Int)) else none
      | none => none
  | cs =>
    match digitsVal cs 0 with
    | some n => if n < 2 ^ 31 then some ((n : Int)) else none
    | none => none

/-- Canonical operator spelling used by the AST rendering.  Modelled from the
spec (section 4.2 and the surface syntax of section 6). -/
def Operator.render : Operator → String
| .Plus => "+"
| .Minus => "-"
| .Multiply => "*"
| .DividedBy => "/"
| .LessThan => "<"
| .GreaterThan => ">"
| .Equals => "=="
| .NotEquals => "!="
| .Bang => "!"

/-- Canonical, fully parenthesised rendering of an expression.  Modelled from
the spec (section 4.2): infix nodes render as `(left op right)`, prefix nodes
as `(op operand)`, literals as their literal form.  The spec does not specify a
rendering for if-expressions and function literals; they render as the empty
string here and no claim exercises them. -/
def Expression.render : Expression → String
| .IdentifierLiteral i => i.name
| .IntegerLiteral n => toString n
| .BooleanLiteral b => if b then "true" else "false"
| .PrefixExpression op r => "(" ++ op.render ++ r.render ++ ")"
| .InfixExpression l op r => "(" ++ l.render ++ " " ++ op.render ++ " " ++ r.render ++ ")"
| .IfExpression _ _ _ => ""
| .FunctionLiteral _ _ => ""

/-- Rendering of a statement: the rendering of its expression (spec section
4.2 specifies rendering for expressions; program rendering concatenates). -/
def Statement.render : Statement → String
| .AssignStatement _ e => e.render
| .ReturnStatement e => e.render
| .ExpressionStatement e => e.render

/-- Outcome of a fueled parsing function: `none` is fuel exhaustion (never hit
with sufficient fuel); otherwise the `Result` of the Rust function paired with
the remaining token stream. -/
abbrev PRes (α : Type) := Option (Except ParseError α × List Token)

/-- Sequencing of parsing steps: Rust's `?` operator.  An error propagates with
the token stream at the point of failure; fuel exhaustion propagates. -/
def andThen {α β : Type} (r : PRes α) (f : α → List Token → PRes β) : PRes β :=
  match r with
  | none => none
  | some (.error e, ts) => some (.error e, ts)
  | some (.ok a, ts) => f a ts

/-- Lift an unfailing-fuel token operation into `PRes`. -/
def liftT {α : Type} (p : Except ParseError α × List Token) : PRes α := some p

/-- The remaining token stream of a parsing outcome has at most `n` tokens
(vacuously true of fuel exhaustion).  This is the parser's cursor-progress
invariant: no parsing function ever makes the stream longer. -/
def RestLe {α : Type} (r : PRes α) (n : Nat) : Prop :=
  ∀ (x : Except ParseError α) (ts' : List Token), r = some (x, ts') → ts'.length ≤ n

/-- Tail of `Parser::create_grouped_expression` (parser.rs:147-148): the source
keeps the inner `Result` and runs `expect_peek(RParen)?` before returning it,
so a missing right parenthesis masks an inner expression error. -/
def close_grouped_expression (grouped_expression : Except ParseError Expression)
    (ts : List Token) : PRes Expression :=
  match expect_peek Token.RParen ts with
  | (.error e, ts1) => some (.error e, ts1)
  | (.ok _, ts1) => some (grouped_expression, ts1)

/-- `Parser::parse_literal` (parser.rs:246-255): consume one token that must be
an identifier. -/
def parse_literal : List Token → Except ParseError Identifier × List Token
| [] => (.error ParseError.ExpectedToken, [])
| Token.Ident literal :: rest => (.ok (Identifier.mk literal), rest)
| unexpected_token :: rest =>
  (.error (ParseError.UnexpectedToken
    (TokenExpectation.SingleExpectation (Token.Ident "")) (some unexpected_token)), rest)

mutual

/-- `Parser::parse_statement` (parser.rs:41-52): consume the leading token and
dispatch — `return` keyword, identifier peeked at an assignment, or an
expression statement; an exhausted stream (also right after a lone identifier)
is `ExpectedToken`. -/
def parse_statement : Nat → List Token → PRes Statement
| 0, _ => none
| fuel+1, ts =>
  match ts with
  | [] => some (.error ParseError.ExpectedToken, [])
  | Token.Return :: rest => parse_return_statement fuel rest
  | Token.Ident s :: rest =>
    match rest with
    | Token.Assign :: _ => parse_assign_statement fuel s rest
    | _ :: _ => parse_expression_statement fuel (Token.Ident s) rest
    | [] => some (.error ParseError.ExpectedToken, [])
  | t :: rest => parse_expression_statement fuel t rest

/-- `Parser::parse_assign_statement` (parser.rs:54-64). -/
def parse_assign_statement : Nat → String → List Token → PRes Statement
| 0, _, _ => none
| fuel+1, identifier, ts =>
  andThen (liftT (expect_peek Token.Assign ts)) (fun _ ts1 =>
  andThen (liftT (expect ts1)) (fun next_token ts2 =>
  andThen (parse_expression fuel next_token Precedence.Lowest ts2) (fun e ts3 =>
  andThen (liftT (expect_peek Token.Period ts3)) (fun _ ts4 =>
  some (.ok (Statement.AssignStatement (Identifier.mk identifier) e), ts4)))))

/-- `Parser::parse_return_statement` (parser.rs:66-73). -/
def parse_return_statement : Nat → List Token → PRes Statement
| 0, _ => none
| fuel+1, ts =>
  andThen (liftT (expect ts)) (fun next_token ts1 =>
  andThen (parse_expression fuel next_token Precedence.Lowest ts1) (fun e ts2 =>
  andThen (liftT (expect_peek Token.Period ts2)) (fun _ ts3 =>
  some (.ok (Statement.ReturnStatement e), ts3))))

/-- `Parser::parse_expression_statement` (parser.rs:75-84): the trailing
period is optional. -/
def parse_expression_statement : Nat → Token → List Token → PRes Statement
| 0, _, _ => none
| fuel+1, current_token, ts =>
  andThen (parse_expression fuel current_token Precedence.Lowest ts) (fun e ts1 =>
  some (.ok (Statement.ExpressionStatement e), optional_expect_peek Token.Period ts1))

/-- `Parser::parse_expression` (parser.rs:86-101): Pratt entry — parse a prefix
production for the already-consumed current token, then run the infix loop. -/
def parse_expression : Nat → Token → Precedence → List Token → PRes Expression
| 0, _, _, _ => none
| fuel+1, current_token, precedence, ts =>
  andThen (parse_prefix_expression fuel current_token ts) (fun left ts1 =>
  parse_expression_loop fuel left precedence ts1)

/-- The `while` loop of `parse_expression` (parser.rs:93-98) as recursion:
continue while the next token has an infix meaning and its precedence strictly
exceeds the precedence passed into the call. -/
def parse_expression_loop : Nat → Expression → Precedence → List Token → PRes Expression
| 0, _, _, _ => none
| fuel+1, left, precedence, ts =>
  if next_token_has_infix_operator ts && precLt precedence (next_token_precedence ts) then
    andThen (liftT (expect ts)) (fun next_token ts1 =>
    andThen (parse_infix_expression fuel left next_token ts1) (fun left2 ts2 =>
    parse_expression_loop fuel left2 precedence ts2))
  else
    some (.ok left, ts)

/-- `Parser::parse_prefix_expression` (parser.rs:103-121). -/
def parse_prefix_expression : Nat → Token → List Token → PRes Expression
| 0, _, _ => none
| fuel+1, token, ts =>
  match token with
  | Token.Ident literal => some (.ok (Expression.IdentifierLiteral (Identifier.mk literal)), ts)
  | Token.Int literal =>
    match parseI32 literal with
    | some parsed_number => some (.ok (Expression.IntegerLiteral parsed_number), ts)
    | none => some (.error (ParseError.ParseIntegerError (Token.Int literal)), ts)
  | Token.Bang => create_prefix_expression fuel Operator.Bang ts
  | Token.Minus => create_prefix_expression fuel Operator.Minus ts
  | Token.LParen => create_grouped_expression fuel ts
  | Token.If => parse_if_expression fuel ts
  | Token.Func => parse_function_literal fuel ts
  | Token.True => some (.ok (Expression.BooleanLiteral true), ts)
  | Token.False => some (.ok (Expression.BooleanLiteral false), ts)
  | unexpected_token => some (.error (ParseError.NoPrefixExpression unexpected_token), ts)

/-- `Parser::parse_infix_expression` (parser.rs:123-142): the right operand is
parsed at the operator's own precedence. -/
def parse_infix_expression : Nat → Expression → Token → List Token → PRes Expression
| 0, _, _, _ => none
| fuel+1, left, token, ts =>
  match has_infix_operator token with
  | some operator =>
    andThen (liftT (expect ts)) (fun next_token ts1 =>
    andThen (parse_expression fuel next_token (get_precedence token) ts1) (fun right ts2 =>
    some (.ok (Expression.InfixExpression left operator right), ts2)))
  | none => some (.error (ParseError.NoInfixExpression token), ts)

/-- `Parser::create_grouped_expression` (parser.rs:144-149): note the source
keeps the inner `Result` and runs `expect_peek(RParen)?` before returning it,
so a missing right parenthesis masks an inner expression error. -/
def create_grouped_expression : Nat → List Token → PRes Expression
| 0, _ => none
| fuel+1, ts =>
  andThen (liftT (expect ts)) (fun next_token ts1 =>
  match parse_expression fuel next_token Precedence.Lowest ts1 with
  | none => none
  | some (grouped_expression, ts2) => close_grouped_expression grouped_expression ts2)

/-- `Parser::parse_if_expression` (parser.rs:190-220), up to the alternative. -/
def parse_if_expression : Nat → List Token → PRes Expression
| 0, _ => none
| fuel+1, ts =>
  andThen (liftT (expect ts)) (fun next_token ts1 =>
  andThen (parse_expression fuel next_token Precedence.Lowest ts1) (fun condition ts2 =>
  andThen (liftT (expect_peek Token.Assign ts2)) (fun _ ts3 =>
  andThen (parse_blockstatement fuel ts3) (fun consequence ts4 =>
  andThen (parse_if_alternative fuel ts4) (fun alternative ts5 =>
  some (.ok (Expression.IfExpression condition consequence alternative), ts5))))))

/-- The `match self.token_iter.consume()` block of `parse_if_expression`
(parser.rs:198-213) deciding the optional else-branch. -/
def parse_if_alternative : Nat → List Token → PRes (Option BlockStatement)
| 0, _ => none
| fuel+1, ts =>
  match ts with
  | Token.Lasagna :: rest => some (.ok none, rest)
  | Token.Else :: rest =>
    andThen (liftT (expect_peek Token.Assign rest)) (fun _ ts1 =>
    andThen (parse_blockstatement fuel ts1) (fun else_block ts2 =>
    andThen (liftT (expect_peek Token.Lasagna ts2)) (fun _ ts3 =>
    some (.ok (some else_block), ts3))))
  | unexpected_token :: rest =>
    some (.error (ParseError.UnexpectedToken
      (TokenExpectation.MultipleExpectation [Token.Lasagna, Token.Else])
      (some unexpected_token)), rest)
  | [] => some (.error ParseError.ExpectedToken, [])

/-- `Parser::parse_function_literal` (parser.rs:151-160). -/
def parse_function_literal : Nat → List Token → PRes Expression
| 0, _ => none
| fuel+1, ts =>
  andThen (parse_function_parameters fuel ts) (fun parameters ts1 =>
  andThen (liftT (expect_peek Token.Assign ts1)) (fun _ ts2 =>
  andThen (parse_blockstatement fuel ts2) (fun body ts3 =>
  andThen (liftT (expect_peek Token.Lasagna ts3)) (fun _ ts4 =>
  some (.ok (Expression.FunctionLiteral parameters body), ts4)))))

/-- `Parser::parse_function_parameters` (parser.rs:162-188): the
`while let Some(token) = consume()` loop; an exhausted stream returns the
parameters collected so far. -/
def parse_function_parameters : Nat → List Token → PRes (List Identifier)
| 0, _ => none
| fuel+1, ts =>
  match ts with
  | [] => some (.ok [], [])
  | Token.LParen :: rest => parse_function_parameters_step fuel rest
  | Token.Comma :: rest => parse_function_parameters_step fuel rest
  | Token.RParen :: rest => some (.ok [], rest)
  | unexpected_token :: rest =>
    some (.error (ParseError.UnexpectedToken
      (TokenExpectation.MultipleExpectation [Token.Comma, Token.RParen])
      (some unexpected_token)), rest)

/-- Body of the `LParen | Comma` arm of `parse_function_parameters`
(parser.rs:166-173): peek for a closing parenthesis, otherwise read one
identifier and continue the loop. -/
def parse_function_parameters_step : Nat → List Token → PRes (List Identifier)
| 0, _ => none
| fuel+1, ts =>
  match ts with
  | Token.RParen :: rest => some (.ok [], rest)
  | _ :: _ =>
    andThen (liftT (parse_literal ts)) (fun ident ts1 =>
    andThen (parse_function_parameters fuel ts1) (fun params ts2 =>
    some (.ok (ident :: params), ts2)))
  | [] => some (.error ParseError.ExpectedToken, [])

/-- `Parser::parse_blockstatement` (parser.rs:222-231): collect statements
until the next token is the block terminator or `else`. -/
def parse_blockstatement : Nat → List Token → PRes BlockStatement
| 0, _ => none
| fuel+1, ts =>
  if next_token_is ts Token.Lasagna || next_token_is ts Token.Else then
    some (.ok (BlockStatement.mk []), ts)
  else
    andThen (parse_statement fuel ts) (fun s ts1 =>
    andThen (parse_blockstatement fuel ts1) (fun block ts2 =>
    some (.ok (BlockStatement.mk (s :: block.statements)), ts2)))

/-- `Parser::create_prefix_expression` (parser.rs:233-244): consume the operand
token (`NoPrefixPartner` when the stream is exhausted) and parse it at
`Prefix` precedence. -/
def create_prefix_expression : Nat → Operator → List Token → PRes Expression
| 0, _, _ => none
| fuel+1, operator, ts =>
  match ts with
  | [] => some (.error ParseError.NoPrefixPartner, [])
  | token :: rest =>
    andThen (parse_expression fuel token Precedence.PrefixOp rest) (fun right ts1 =>
    some (.ok (Expression.PrefixExpression operator right), ts1))

end

/-- `Parser::parse_program` (parser.rs:21-39): while tokens remain, parse one
statement; a success is appended to the statements, a failure is appended to
the errors after resynchronising the cursor to the next statement boundary. -/
def parse_program : Nat → List Token → Option Program
| 0, _ => none
| _+1, [] => some (Program.mk [] [])
| fuel+1, t :: ts =>
  match parse_statement fuel (t :: ts) with
  | none => none
  | some (.ok s, ts1) =>
    match parse_program fuel ts1 with
    | none => none
    | some p => some (Program.mk (s :: p.statements) p.parse_errors)
  | some (.error e, ts1) =>
    match parse_program fuel (iterate_to_next_statement ts1) with
    | none => none
    | some p => some (Program.mk p.statements (e :: p.parse_errors))

namespace interp

/-- `PrefixOperator` of the interpreter crate's ast.rs (spec section 3:
`Prefix{operator: Bang|Minus, ...}`). -/
inductive PrefixOperator where
| Bang
| Minus
deriving DecidableEq

mutual

/-- Expressions of the interpreter crate's AST, the input type of
evaluator.rs.  The source wraps prefix/infix payloads in named structs and
boxes; this embedding flattens them.  `Prefix`/`Infix` are named
`PrefixExpr`/`InfixExpr` (Lean lint constraint on those identifiers).  The
payloads of `If`, `Function` and `Call` follow the spec's data model (section
3); evaluator.rs never inspects them (`todo!()` arms). -/
inductive Expression where
| IntegerLiteral (value : Int)
| IdentifierLiteral (ident : Identifier)
| BooleanLiteral (value : Bool)
| PrefixExpr (operator : PrefixOperator) (right : Expression)
| InfixExpr (left : Expression) (operator : Operator) (right : Expression)
| If (condition : Expression) (consequence : List Statement)
    (alternative : Option (List Statement))
| Function (parameters : List Identifier) (body : List Statement)
| Call (function : Expression) (arguments : List Expression)

/-- Statements of the interpreter crate's AST; the `ExpressionStatement`
wrapper struct is flattened into the `Expression` variant's payload. -/
inductive Statement where
| Expression (value : Expression)
| Assign (ident : Identifier) (value : Expression)
| Return (value : Expression)

end

/-- The closed runtime value set of objects.rs (spec section 3):
`Integer(i32)` (an `Int`, kept in `i32` range by `wrap32`) or `Boolean`. -/
inductive Object where
| Integer (value : Int)
| Boolean (value : Bool)
deriving DecidableEq

/-- `EvalError` of eval_error.rs, with exactly the variants evaluator.rs
constructs (the file itself is not among the sources; shapes are determined by
their use sites and the spec, sections 4.3 and 7). -/
inductive EvalError where
| EmptyProgram
| InfixRightLeft (left : Object) (right : Object)
| BooleanInfixOperator (operator : Operator)
| IntegerInfixOperatorError (operator : Operator)
| IncorrectBangSuffix (obj : Object)
deriving DecidableEq

/-- Outcome of evaluation: the Rust `Result<Object, EvalError>` plus `fault`,
which models a Rust panic escaping the `Result` — the `todo!()` arms for
unimplemented constructs, division by zero, and arithmetic overflow of the
division operator. -/
inductive EvalOutcome where
| ok (obj : Object)
| err (e : EvalError)
| fault
deriving DecidableEq

/-- Two's-complement wrap-around into the `i32` range, the release-mode
behaviour of Rust's native 32-bit arithmetic. -/
def wrap32 (z : Int) : Int := (z + 2 ^ 31) % 2 ^ 32 - 2 ^ 31

/-- Whether an integer is representable as an `i32`. -/
abbrev inRange32 (z : Int) : Prop := -2 ^ 31 ≤ z ∧ z < 2 ^ 31

/-- `eval_integer_infix_expression` (evaluator.rs:100-122): `+ - * /` produce
Integers by native `i32` arithmetic (wrapping; `/` truncates toward zero and
faults on a zero divisor or on `i32::MIN / -1`), the comparisons produce
Booleans, and any other operator is `IntegerInfixOperatorError`. -/
def eval_integer_infix_expression (left_integer right_integer : Int)
    (operator : Operator) : EvalOutcome :=
  match operator with
  | Operator.Minus => .ok (.Integer (wrap32 (left_integer - right_integer)))
  | Operator.Plus => .ok (.Integer (wrap32 (left_integer + right_integer)))
  | Operator.Multiply => .ok (.Integer (wrap32 (left_integer * right_integer)))
  | Operator.DividedBy =>
    if right_integer = 0 then .fault
    else if left_integer = -2 ^ 31 ∧ right_integer = -1 then .fault
    else .ok (.Integer (Int.tdiv left_integer right_integer))
  | Operator.LessThan => .ok (.Boolean (decide (left_integer < right_integer)))
  | Operator.GreaterThan => .ok (.Boolean (decide (right_integer < left_integer)))
  | Operator.Equals => .ok (.Boolean (decide (left_integer = right_integer)))
  | Operator.NotEquals => .ok (.Boolean (!decide (left_integer = right_integer)))
  | unexpected_operator => .err (.IntegerInfixOperatorError unexpected_operator)

/-- `eval_boolean_infix_expression` (evaluator.rs:82-98): only `==` and `!=`
are legal on Booleans. -/
def eval_boolean_infix_expression (left_boolean right_boolean : Bool)
    (operator : Operator) : EvalOutcome :=
  match operator with
  | Operator.Equals => .ok (.Boolean (left_boolean == right_boolean))
  | Operator.NotEquals => .ok (.Boolean (!(left_boolean == right_boolean)))
  | unsupported_operator => .err (.BooleanInfixOperator unsupported_operator)

/-- `eval_infix_expression` (evaluator.rs:62-80): dispatch on the pair of
evaluated operand values; any mixed pairing is `InfixRightLeft` carrying both
values. -/
def eval_infix_expression (operator : Operator) (left right : Object) : EvalOutcome :=
  match left, right with
  | Object.Integer li, Object.Integer ri => eval_integer_infix_expression li ri operator
  | Object.Boolean lb, Object.Boolean rb => eval_boolean_infix_expression lb rb operator
  | unexpected_left, unexpected_right => .err (.InfixRightLeft unexpected_left unexpected_right)

/-- `eval_bang_operator_expression` (evaluator.rs:142-147). -/
def eval_bang_operator_expression : Object → EvalOutcome
| Object.Boolean boolean_value => .ok (.Boolean (!boolean_value))
| unexpected_object => .err (.IncorrectBangSuffix unexpected_object)

/-- `eval_minus_operator_expression` (evaluator.rs:135-140): note the error
kind is `IncorrectBangSuffix`, as in the source.  Negation wraps (`i32::MIN`
negates to itself in release mode). -/
def eval_minus_operator_expression : Object → EvalOutcome
| Object.Integer integer_value => .ok (.Integer (wrap32 (-integer_value)))
| unexpected_object => .err (.IncorrectBangSuffix unexpected_object)

/-- `Evaluable::eval` for `Expression` (evaluator.rs:37-59), with the prefix
case inlined from `eval_prefix_expression` (evaluator.rs:124-133): evaluate
the operand first, then dispatch on the operator.  The `todo!()` arms
(identifier, if, function, call) are the `fault` outcome. -/
def Expression.eval : Expression → EvalOutcome
| Expression.IntegerLiteral number => .ok (.Integer number)
| Expression.IdentifierLiteral _ => .fault
| Expression.BooleanLiteral boolean => .ok (.Boolean boolean)
| Expression.PrefixExpr operator right =>
  (match right.eval with
   | .ok v =>
     (match operator with
      | PrefixOperator.Bang => eval_bang_operator_expression v
      | PrefixOperator.Minus => eval_minus_operator_expression v)
   | .err e => .err e
   | .fault => .fault)
| Expression.InfixExpr left operator right =>
  (match left.eval with
   | .ok lv =>
     (match right.eval with
      | .ok rv => eval_infix_expression operator lv rv
      | .err e => .err e
      | .fault => .fault)
   | .err e => .err e
   | .fault => .fault)
| Expression.If _ _ _ => .fault
| Expression.Function _ _ => .fault
| Expression.Call _ _ => .fault

/-- `eval_prefix_expression` (evaluator.rs:124-133) as a standalone function;
definitionally equal to the prefix case of `Expression.eval`. -/
def eval_prefix_expression (right : Expression) (operator : PrefixOperator) : EvalOutcome :=
  match right.eval with
  | .ok v =>
    (match operator with
     | PrefixOperator.Bang => eval_bang_operator_expression v
     | PrefixOperator.Minus => eval_minus_operator_expression v)
  | .err e => .err e
  | .fault => .fault

/-- `Evaluable::eval` for `Statement` (evaluator.rs:27-35): the `todo!()` arms
for Assign and Return statements are the `fault` outcome. -/
def Statement.eval : Statement → EvalOutcome
| Statement.Expression expression => expression.eval
| Statement.Assign _ _ => .fault
| Statement.Return _ => .fault

/-- The interpreter crate's `Program`: the parsed statements handed to eval. -/
structure Program where
  statements : List Statement

/-- The statement loop of `Evaluable::eval` for `Program` (evaluator.rs:14-23):
`object = Some(statement.eval()?)` for each statement, then the final object
or `EmptyProgram` when none was produced. -/
def evalStatementsGo : List Statement → Option Object → EvalOutcome
| [], none => .err .EmptyProgram
| [], some o => .ok o
| s :: rest, _ =>
  match s.eval with
  | .ok o => evalStatementsGo rest (some o)
  | .err e => .err e
  | .fault => .fault

/-- `Evaluable::eval` for `Program` (evaluator.rs:12-25). -/
def Program.eval (p : Program) : EvalOutcome := evalStatementsGo p.statements none

end interp

/-- Prefix operators of the parser crate's AST mapped into the interpreter
crate's `PrefixOperator`; parser.rs only builds `Bang` and `Minus` prefixes. -/
def toPrefixOperator : Operator → Option interp.PrefixOperator
| Operator.Bang => some interp.PrefixOperator.Bang
| Operator.Minus => some interp.PrefixOperator.Minus
| _ => none

/-- Modelled from the spec: the interpreter crate contains its own copy of the
parser (not among the sources) producing its own AST of the same shape
(spec sections 2-4).  This translation carries the parser crate's AST into the
interpreter crate's AST on the literal/prefix/infix/grouping subset (the
round-trip subset of spec section 8); if-expressions and function literals,
which the evaluator cannot evaluate anyway, translate to `none`. -/
def toInterpExpression : Expression → Option interp.Expression
| Expression.IdentifierLiteral i => some (interp.Expression.IdentifierLiteral i)
| Expression.IntegerLiteral n => some (interp.Expression.IntegerLiteral n)
| Expression.BooleanLiteral b => some (interp.Expression.BooleanLiteral b)
| Expression.PrefixExpression op r =>
  match toPrefixOperator op, toInterpExpression r with
  | some p, some r2 => some (interp.Expression.PrefixExpr p r2)
  | _, _ => none
| Expression.InfixExpression l op r =>
  match toInterpExpression l, toInterpExpression r with
  | some l2, some r2 => some (interp.Expression.InfixExpr l2 op r2)
  | _, _ => none
| Expression.IfExpression _ _ _ => none
| Expression.FunctionLiteral _ _ => none

/-- Statement-level companion of `toInterpExpression`. -/
def toInterpStatement : Statement → Option interp.Statement
| Statement.ExpressionStatement e => (toInterpExpression e).map interp.Statement.Expression
| Statement.AssignStatement i e => (toInterpExpression e).map (interp.Statement.Assign i)
| Statement.ReturnStatement e => (toInterpExpression e).map interp.Statement.Return

/-- List-level companion of `toInterpStatement`. -/
def toInterpStatements : List Statement → Option (List interp.Statement)
| [] => some []
| s :: rest =>
  match toInterpStatement s, toInterpStatements rest with
  | some s2, some rest2 => some (s2 :: rest2)
  | _, _ => none

/-- Modelled from the spec: the evaluator entry point `eval(source, env)`
(spec section 6) parses the source and evaluates the program when no parse
error occurred.  `none` covers fuel exhaustion, parse errors and the AST
subset the translation does not carry — none of which any claim's inputs
reach. -/
def evalTokens (fuel : Nat) (ts : List Token) : Option interp.EvalOutcome :=
  match parse_program fuel ts with
  | none => none
  | some p =>
    match p.parse_errors with
    | _ :: _ => none
    | [] =>
      match toInterpStatements p.statements with
      | none => none
      | some ss => some (interp.Program.eval (interp.Program.mk ss))

/-- Runtime type tag equality of two objects (spec section 4.3: infix
dispatch is on the operand-type pair; a mixed pair is the error case). -/
def interp.Object.sameType : interp.Object → interp.Object → Bool
| .Integer _, .Integer _ => true
| .Boolean _, .Boolean _ => true
| _, _ => false

/-- A statement-sized slice of a token stream, classified for the
error-recovery property (spec section 8): either it parses to a statement
consuming exactly its own tokens, or parsing fails inside it, leaving the
given unconsumed `tail` of the slice. -/
inductive Seg where
| valid (tokens : List Token) (stmt : Statement)
| invalid (tokens : List Token) (e : ParseError) (tail : List Token)

/-- The tokens of a classified slice. -/
def Seg.tokens : Seg → List Token
| .valid ts _ => ts
| .invalid ts _ _ => ts

/-- Concatenation of the slices into one token stream. -/
def segsTokens : List Seg → List Token
| [] => []
| s :: rest => s.tokens ++ segsTokens rest

/-- The statements of the valid slices, in order. -/
def segsStatements : List Seg → List Statement
| [] => []
| .valid _ stmt :: rest => stmt :: segsStatements rest
| .invalid _ _ _ :: rest => segsStatements rest

/-- The errors of the invalid slices, in order. -/
def segsErrors : List Seg → List ParseError
| [] => []
| .valid _ _ :: rest => segsErrors rest
| .invalid _ e _ :: rest => e :: segsErrors rest

/-- Number of valid slices. -/
def countValid : List Seg → Nat
| [] => 0
| .valid _ _ :: rest => countValid rest + 1
| .invalid _ _ _ :: rest => countValid rest

/-- Number of invalid slices. -/
def countInvalid : List Seg → Nat
| [] => 0
| .valid _ _ :: rest => countInvalid rest
| .invalid _ _ _ :: rest => countInvalid rest + 1

/-- Correctness of a slice's classification, uniformly in whatever follows it
in the stream (`N` is a fuel threshold): a valid slice parses to exactly its
statement consuming exactly its tokens; an invalid slice fails with its error,
leaving `tail ++ rest`, and resynchronisation from there discards exactly the
remainder of the slice. -/
def SegOk (N : Nat) : Seg → Prop
| .valid ts stmt => ts ≠ [] ∧ ∀ (rest : List Token) (fuel : Nat), N ≤ fuel →
    parse_statement fuel (ts ++ rest) = some (.ok stmt, rest)
| .invalid ts e tail => ts ≠ [] ∧
    (∀ (rest : List Token) (fuel : Nat), N ≤ fuel →
      parse_statement fuel (ts ++ rest) = some (.error e, tail ++ rest)) ∧
    (∀ rest : List Token, iterate_to_next_statement (tail ++ rest) = rest)

/-- Concrete mixed stream for the error-recovery property: two invalid
statements (`+.` and `*.`) interleaved with two valid ones (`5.` and
`true.`). -/
def mixedSegs : List Seg :=
  [Seg.invalid [Token.Plus, Token.Period] (ParseError.NoPrefixExpression Token.Plus)
     [Token.Period],
   Seg.valid [Token.Int "5", Token.Period]
     (Statement.ExpressionStatement (Expression.IntegerLiteral 5)),
   Seg.invalid [Token.Multiply, Token.Period] (ParseError.NoPrefixExpression Token.Multiply)
     [Token.Period],
   Seg.valid [Token.True, Token.Period]
     (Statement.ExpressionStatement (Expression.BooleanLiteral true))]

/-! Helper lemmas about wrapping arithmetic and the statement loop of program
evaluation. -/

/-- Wrapping is the identity on the `i32` range. -/
theorem wrap32_eq_self {z : Int} (h1 : -2 ^ 31 ≤ z) (h2 : z < 2 ^ 31) :
    interp.wrap32 z = z := by
  unfold interp.wrap32
  have e32 : (2 : Int) ^ 32 = 4294967296 := by norm_num
  have e31 : (2 : Int) ^ 31 = 2147483648 := by norm_num
  rw [e32, e31]
  rw [e31] at h1 h2
  omega

/-- The statement loop returns the last statement's outcome once every earlier
statement evaluated to a value, whatever the accumulator holds. -/
theorem evalStatementsGo_append_last (ss : List interp.Statement) (s : interp.Statement) :
    ∀ acc, (∀ t ∈ ss, ∃ v, t.eval = interp.EvalOutcome.ok v) →
      interp.evalStatementsGo (ss ++ [s]) acc = s.eval := by
  induction ss with
  | nil =>
    intro acc _
    cases hs : s.eval <;> simp [interp.evalStatementsGo, hs]
  | cons t ts ih =>
    intro acc h
    obtain ⟨v, hv⟩ := h t (List.mem_cons_self t ts)
    simp only [List.cons_append, interp.evalStatementsGo, hv]
    exact ih (some v) (fun u hu => h u (List.mem_cons_of_mem t hu))

/-- The statement loop stops at the first statement that fails, returning its
error, once every earlier statement evaluated to a value. -/
theorem evalStatementsGo_first_err (ss1 : List interp.Statement) (s : interp.Statement)
    (ss2 : List interp.Statement) (e : interp.EvalError) :
    ∀ acc, (∀ t ∈ ss1, ∃ v, t.eval = interp.EvalOutcome.ok v) →
      s.eval = interp.EvalOutcome.err e →
      interp.evalStatementsGo (ss1 ++ s :: ss2) acc = interp.EvalOutcome.err e := by
  induction ss1 with
  | nil =>
    intro acc _ hs
    simp [interp.evalStatementsGo, hs]
  | cons t ts ih =>
    intro acc h hs
    obtain ⟨v, hv⟩ := h t (List.mem_cons_self t ts)
    simp only [List.cons_append, interp.evalStatementsGo, hv]
    exact ih (some v) (fun u hu => h u (List.mem_cons_of_mem t hu)) hs

/-- C6: Program evaluation evaluates the statements in order and returns the
value of the last statement; an empty Program fails with `EmptyProgram`; and
evaluation stops at the first statement whose evaluation fails, returning that
error with no partial result. -/
theorem program_eval_sequential :
    ((interp.Program.mk []).eval = interp.EvalOutcome.err interp.EvalError.EmptyProgram) ∧
    (∀ (ss : List interp.Statement) (s : interp.Statement),
      (∀ t ∈ ss, ∃ v, t.eval = interp.EvalOutcome.ok v) →
      (interp.Program.mk (ss ++ [s])).eval = s.eval) ∧
    (∀ (ss1 : List interp.Statement) (s : interp.Statement)
      (ss2 : List interp.Statement) (e : interp.EvalError),
      (∀ t ∈ ss1, ∃ v, t.eval = interp.EvalOutcome.ok v) →
      s.eval = interp.EvalOutcome.err e →
      (interp.Program.mk (ss1 ++ s :: ss2)).eval = interp.EvalOutcome.err e) := by
  refine ⟨rfl, ?_, ?_⟩
  · intro ss s h
    exact evalStatementsGo_append_last ss s none h
  · intro ss1 s ss2 e h hs
    exact evalStatementsGo_first_err ss1 s ss2 e none h hs

/-- Witness for C6 at a concrete two-statement program `1. 2.`. -/
theorem program_eval_sequential_witness :
    (interp.Program.mk [interp.Statement.Expression (interp.Expression.IntegerLiteral 1),
        interp.Statement.Expression (interp.Expression.IntegerLiteral 2)]).eval =
      interp.EvalOutcome.ok (interp.Object.Integer 2) := by
  have h := program_eval_sequential.2.1
    [interp.Statement.Expression (interp.Expression.IntegerLiteral 1)]
    (interp.Statement.Expression (interp.Expression.IntegerLiteral 2))
    (by
      intro t ht
      simp only [List.mem_singleton] at ht
      subst ht
      exact ⟨interp.Object.Integer 1, rfl⟩)
  simpa using h

/-- C4: an infix whose evaluated operands have different runtime types always
fails with `InfixRightLeft` carrying both operand values, for every operator;
no coercion, no value. -/
theorem mixed_operand_infix_fails :
    (∀ (op : Operator) (n : Int) (b : Bool),
      interp.eval_infix_expression op (interp.Object.Integer n) (interp.Object.Boolean b) =
        interp.EvalOutcome.err
          (interp.EvalError.InfixRightLeft (interp.Object.Integer n) (interp.Object.Boolean b))) ∧
    (∀ (op : Operator) (b : Bool) (n : Int),
      interp.eval_infix_expression op (interp.Object.Boolean b) (interp.Object.Integer n) =
        interp.EvalOutcome.err
          (interp.EvalError.InfixRightLeft (interp.Object.Boolean b) (interp.Object.Integer n))) ∧
    (∀ (l r : interp.Expression) (op : Operator) (vl vr : interp.Object),
      l.eval = interp.EvalOutcome.ok vl → r.eval = interp.EvalOutcome.ok vr →
      interp.Object.sameType vl vr = false →
      (interp.Expression.InfixExpr l op r).eval =
        interp.EvalOutcome.err (interp.EvalError.InfixRightLeft vl vr)) := by
  refine ⟨fun _ _ _ => rfl, fun _ _ _ => rfl, ?_⟩
  intro l r op vl vr hl hr hmix
  cases vl <;> cases vr <;>
    simp_all [interp.Object.sameType, interp.Expression.eval, interp.eval_infix_expression]

/-- Witness for C4 at `5 == true`. -/
theorem mixed_operand_infix_fails_witness :
    (interp.Expression.InfixExpr (interp.Expression.IntegerLiteral 5) Operator.Equals
        (interp.Expression.BooleanLiteral true)).eval =
      interp.EvalOutcome.err (interp.EvalError.InfixRightLeft
        (interp.Object.Integer 5) (interp.Object.Boolean true)) :=
  mixed_operand_infix_fails.2.2 _ _ Operator.Equals _ _ rfl rfl rfl

/-- C5: prefix evaluation evaluates the operand first (propagating its error);
`Bang` negates Booleans and fails with `IncorrectBangSuffix` otherwise; `Minus`
negates Integers and fails with the same error kind otherwise. -/
theorem prefix_evaluation_dispatch :
    (∀ (r : interp.Expression) (op : interp.PrefixOperator),
      (interp.Expression.PrefixExpr op r).eval = interp.eval_prefix_expression r op) ∧
    (∀ (r : interp.Expression) (op : interp.PrefixOperator) (e : interp.EvalError),
      r.eval = interp.EvalOutcome.err e →
      interp.eval_prefix_expression r op = interp.EvalOutcome.err e) ∧
    (∀ (r : interp.Expression) (b : Bool),
      r.eval = interp.EvalOutcome.ok (interp.Object.Boolean b) →
      interp.eval_prefix_expression r interp.PrefixOperator.Bang =
        interp.EvalOutcome.ok (interp.Object.Boolean (!b))) ∧
    (∀ (r : interp.Expression) (n : Int),
      r.eval = interp.EvalOutcome.ok (interp.Object.Integer n) →
      interp.eval_prefix_expression r interp.PrefixOperator.Bang =
        interp.EvalOutcome.err (interp.EvalError.IncorrectBangSuffix (interp.Object.Integer n))) ∧
    (∀ (r : interp.Expression) (n : Int),
      r.eval = interp.EvalOutcome.ok (interp.Object.Integer n) →
      -2 ^ 31 < n → n < 2 ^ 31 →
      interp.eval_prefix_expression r interp.PrefixOperator.Minus =
        interp.EvalOutcome.ok (interp.Object.Integer (-n))) ∧
    (∀ (r : interp.Expression) (b : Bool),
      r.eval = interp.EvalOutcome.ok (interp.Object.Boolean b) →
      interp.eval_prefix_expression r interp.PrefixOperator.Minus =
        interp.EvalOutcome.err (interp.EvalError.IncorrectBangSuffix (interp.Object.Boolean b))) := by
  refine ⟨fun _ _ => rfl, ?_, ?_, ?_, ?_, ?_⟩
  · intro r op e h
    simp [interp.eval_prefix_expression, h]
  · intro r b h
    simp [interp.eval_prefix_expression, h, interp.eval_bang_operator_expression]
  · intro r n h
    simp [interp.eval_prefix_expression, h, interp.eval_bang_operator_expression]
  · intro r n h h1 h2
    simp only [interp.eval_prefix_expression, h, interp.eval_minus_operator_expression]
    rw [wrap32_eq_self (by omega) (by omega)]
  · intro r b h
    simp [interp.eval_prefix_expression, h, interp.eval_minus_operator_expression]

/-- Witness for C5 at `-(5)` and the hypotheses discharged concretely. -/
theorem prefix_evaluation_dispatch_witness :
    interp.eval_prefix_expression (interp.Expression.IntegerLiteral 5)
      interp.PrefixOperator.Minus = interp.EvalOutcome.ok (interp.Object.Integer (-5)) :=
  prefix_evaluation_dispatch.2.2.2.2.1 (interp.Expression.IntegerLiteral 5) 5 rfl
    (by norm_num) (by norm_num)

/-- C8 (counterexample to the claim as stated): evaluating an unimplemented
construct does not surface an error value — the `todo!()` arm panics, modelled
as the `fault` outcome, which is a different constructor from every
`EvalOutcome.err e` and every `EvalOutcome.ok v`. -/
theorem unimplemented_eval_no_error_value :
    (interp.Statement.Assign (Identifier.mk "x")
        (interp.Expression.IntegerLiteral 5)).eval = interp.EvalOutcome.fault := rfl

/-- C8 (amended): evaluating any of the unimplemented constructs (Assign
statements, Return statements, identifier literals, if expressions, function
literals, call expressions) panics via `todo!()` — modelled as the `fault`
outcome — rather than silently returning a default value or an ordinary
`EvalError`. -/
theorem unimplemented_eval_faults :
    ∀ (i : Identifier) (e c : interp.Expression)
      (cs : List interp.Statement) (alt : Option (List interp.Statement))
      (ps : List Identifier) (body : List interp.Statement)
      (f : interp.Expression) (args : List interp.Expression),
    (interp.Statement.Assign i e).eval = interp.EvalOutcome.fault ∧
    (interp.Statement.Return e).eval = interp.EvalOutcome.fault ∧
    (interp.Expression.IdentifierLiteral i).eval = interp.EvalOutcome.fault ∧
    (interp.Expression.If c cs alt).eval = interp.EvalOutcome.fault ∧
    (interp.Expression.Function ps body).eval = interp.EvalOutcome.fault ∧
    (interp.Expression.Call f args).eval = interp.EvalOutcome.fault :=
  fun _ _ _ _ _ _ _ _ _ => ⟨rfl, rfl, rfl, rfl, rfl, rfl⟩

/-- C9: integer division by zero is unguarded — for every left operand it
faults (the `fault` outcome modelling the Rust division panic) instead of
returning a defined `EvalError` or any value; likewise through full infix
evaluation whenever the right operand evaluates to `Integer 0`. -/
theorem division_by_zero_unguarded :
    (∀ a : Int, interp.eval_integer_infix_expression a 0 Operator.DividedBy =
      interp.EvalOutcome.fault) ∧
    (∀ (l r : interp.Expression) (a : Int),
      l.eval = interp.EvalOutcome.ok (interp.Object.Integer a) →
      r.eval = interp.EvalOutcome.ok (interp.Object.Integer 0) →
      (interp.Expression.InfixExpr l Operator.DividedBy r).eval =
        interp.EvalOutcome.fault) := by
  constructor
  · intro a
    simp [interp.eval_integer_infix_expression]
  · intro l r a hl hr
    simp [interp.Expression.eval, hl, hr, interp.eval_infix_expression,
      interp.eval_integer_infix_expression]

/-- Witness for C9 at `5 / 0`. -/
theorem division_by_zero_unguarded_witness :
    (interp.Expression.InfixExpr (interp.Expression.IntegerLiteral 5) Operator.DividedBy
        (interp.Expression.IntegerLiteral 0)).eval = interp.EvalOutcome.fault :=
  division_by_zero_unguarded.2 _ _ 5 rfl rfl

/-- C3: on Integer operands `+ - * /` produce Integer results matching native
32-bit arithmetic (`/` truncating toward zero, defined whenever it does not
fault) and the comparisons produce Boolean results matching native comparison;
and the three arithmetic programs of the spec evaluate to 25, 30 and 50. -/
theorem integer_infix_arithmetic (a b : Int)
    (_ha : interp.inRange32 a) (_hb : interp.inRange32 b) :
    (interp.inRange32 (a + b) →
      interp.eval_integer_infix_expression a b Operator.Plus =
        interp.EvalOutcome.ok (interp.Object.Integer (a + b))) ∧
    (interp.inRange32 (a - b) →
      interp.eval_integer_infix_expression a b Operator.Minus =
        interp.EvalOutcome.ok (interp.Object.Integer (a - b))) ∧
    (interp.inRange32 (a * b) →
      interp.eval_integer_infix_expression a b Operator.Multiply =
        interp.EvalOutcome.ok (interp.Object.Integer (a * b))) ∧
    (b ≠ 0 → ¬(a = -2 ^ 31 ∧ b = -1) →
      interp.eval_integer_infix_expression a b Operator.DividedBy =
        interp.EvalOutcome.ok (interp.Object.Integer (Int.tdiv a b))) ∧
    (interp.eval_integer_infix_expression a b Operator.LessThan =
      interp.EvalOutcome.ok (interp.Object.Boolean (decide (a < b)))) ∧
    (interp.eval_integer_infix_expression a b Operator.GreaterThan =
      interp.EvalOutcome.ok (interp.Object.Boolean (decide (a > b)))) ∧
    (interp.eval_integer_infix_expression a b Operator.Equals =
      interp.EvalOutcome.ok (interp.Object.Boolean (decide (a = b)))) ∧
    (interp.eval_integer_infix_expression a b Operator.NotEquals =
      interp.EvalOutcome.ok (interp.Object.Boolean (decide (a ≠ b)))) ∧
    (evalTokens 64 [Token.Int "5", Token.Plus, Token.Int "2", Token.Multiply, Token.Int "10"] =
      some (interp.EvalOutcome.ok (interp.Object.Integer 25))) ∧
    (evalTokens 64 [Token.Int "2", Token.Multiply, Token.LParen, Token.Int "5", Token.Plus,
        Token.Int "10", Token.RParen] =
      some (interp.EvalOutcome.ok (interp.Object.Integer 30))) ∧
    (evalTokens 64 [Token.LParen, Token.Int "5", Token.Plus, Token.Int "10", Token.Multiply,
        Token.Int "2", Token.Plus, Token.Int "15", Token.DividedBy, Token.Int "3",
        Token.RParen, Token.Multiply, Token.Int "2", Token.Plus, Token.Minus,
        Token.Int "10"] =
      some (interp.EvalOutcome.ok (interp.Object.Integer 50))) := by
  refine ⟨?_, ?_, ?_, ?_, rfl, rfl, rfl, ?_, rfl, rfl, rfl⟩
  · intro h
    simp only [interp.eval_integer_infix_expression]
    rw [wrap32_eq_self h.1 h.2]
  · intro h
    simp only [interp.eval_integer_infix_expression]
    rw [wrap32_eq_self h.1 h.2]
  · intro h
    simp only [interp.eval_integer_infix_expression]
    rw [wrap32_eq_self h.1 h.2]
  · intro h0 hmin
    simp only [interp.eval_integer_infix_expression]
    rw [if_neg h0, if_neg hmin]
  · simp [interp.eval_integer_infix_expression, decide_not]

/-- Witness for C3 at `7 / -2` (truncation toward zero: the quotient is -3). -/
theorem integer_infix_arithmetic_witness :
    interp.eval_integer_infix_expression 7 (-2) Operator.DividedBy =
      interp.EvalOutcome.ok (interp.Object.Integer (-3)) := by
  have h := (integer_infix_arithmetic 7 (-2) (by constructor <;> norm_num)
    (by constructor <;> norm_num)).2.2.2.1 (by norm_num) (by norm_num)
  simpa using h

/-! Helper lemmas about the precedence guard of the Pratt loop. -/

/-- Every token with an infix meaning binds strictly tighter than `Lowest`. -/
theorem precLt_lowest_of_infix {t : Token} {o : Operator}
    (h : has_infix_operator t = some o) :
    precLt Precedence.Lowest (get_precedence t) = true := by
  cases t <;> simp_all [has_infix_operator] <;> rfl

/-- The strict precedence comparison is irreflexive: the Pratt loop stops at an
operator of the same precedence as the one passed into the call. -/
theorem precLt_self (p : Precedence) : precLt p p = false := by
  cases p <;> rfl

/-- C1: equal-precedence binary operators associate to the left — for any two
infix tokens of equal precedence, `x t1 y t2 z` parses as `((x o1 y) o2 z)`,
because the loop continues only while the next operator's precedence strictly
exceeds the precedence passed into the current call — and the three spec
programs render as stated. -/
theorem pratt_left_assoc_and_precedence :
    (∀ (k : Nat) (a b c : String) (t1 t2 : Token) (o1 o2 : Operator),
      has_infix_operator t1 = some o1 → has_infix_operator t2 = some o2 →
      get_precedence t1 = get_precedence t2 →
      parse_expression (k + 16) (Token.Ident a) Precedence.Lowest
          [t1, Token.Ident b, t2, Token.Ident c] =
        some (.ok (Expression.InfixExpression
          (Expression.InfixExpression (Expression.IdentifierLiteral (Identifier.mk a)) o1
            (Expression.IdentifierLiteral (Identifier.mk b))) o2
          (Expression.IdentifierLiteral (Identifier.mk c))), [])) ∧
    ((parse_program 32 [Token.Ident "a", Token.Plus, Token.Ident "b", Token.Plus,
        Token.Ident "c"]).map (fun p => (p.statements.map Statement.render, p.parse_errors)) =
      some (["((a + b) + c)"], [])) ∧
    ((parse_program 32 [Token.Minus, Token.Ident "a", Token.Multiply,
        Token.Ident "b"]).map (fun p => (p.statements.map Statement.render, p.parse_errors)) =
      some (["((-a) * b)"], [])) ∧
    ((parse_program 64 [Token.Ident "a", Token.Plus, Token.Ident "b", Token.Multiply,
        Token.Ident "c", Token.Plus, Token.Ident "d", Token.DividedBy, Token.Ident "e",
        Token.Minus, Token.Ident "f"]).map
          (fun p => (p.statements.map Statement.render, p.parse_errors)) =
      some (["(((a + (b * c)) + (d / e)) - f)"], [])) := by
  refine ⟨?_, rfl, rfl, rfl⟩
  intro k a b c t1 t2 o1 o2 h1 h2 h3
  have g1 := precLt_lowest_of_infix h1
  have g2 := precLt_lowest_of_infix h2
  have g3 : precLt (get_precedence t1) (get_precedence t2) = false := by
    rw [h3]; exact precLt_self _
  simp [parse_expression, parse_expression_loop, parse_prefix_expression,
    parse_infix_expression, andThen, liftT, expect, next_token_has_infix_operator,
    next_token_precedence, h1, h2, g1, g2, g3]

/-- Witness for C1's general part at `x + y + z`. -/
theorem pratt_left_assoc_and_precedence_witness :
    parse_expression (0 + 16) (Token.Ident "x") Precedence.Lowest
        [Token.Plus, Token.Ident "y", Token.Plus, Token.Ident "z"] =
      some (.ok (Expression.InfixExpression
        (Expression.InfixExpression (Expression.IdentifierLiteral (Identifier.mk "x"))
          Operator.Plus (Expression.IdentifierLiteral (Identifier.mk "y"))) Operator.Plus
        (Expression.IdentifierLiteral (Identifier.mk "z"))), []) :=
  pratt_left_assoc_and_precedence.1 0 "x" "y" "z" Token.Plus Token.Plus
    Operator.Plus Operator.Plus rfl rfl rfl

/-- C7 (counterexample to the claim as stated): an identifier that is the last
token of the stream is not parsed as an Expression statement — parse_statement
returns `ExpectedToken` (parser.rs:47) — although dispatching it to
parse_expression_statement would have succeeded. -/
theorem statement_dispatch_counterexample :
    parse_statement 10 [Token.Ident "x"] =
      some (.error ParseError.ExpectedToken, []) ∧
    parse_expression_statement 9 (Token.Ident "x") [] =
      some (.ok (Statement.ExpressionStatement
        (Expression.IdentifierLiteral (Identifier.mk "x"))), []) :=
  ⟨rfl, rfl⟩

/-- C7 (amended): the leading token decides the statement kind — a return
keyword starts a Return statement; an identifier whose next token is the
assignment punctuation starts an Assign statement; an identifier followed by
any other token, and any other leading token, starts an Expression statement;
but an identifier that is the final token of the stream yields an
`ExpectedToken` error, as does an empty stream. -/
theorem statement_dispatch_by_leading_token :
    (∀ (fuel : Nat) (ts : List Token),
      parse_statement (fuel + 1) (Token.Return :: ts) = parse_return_statement fuel ts) ∧
    (∀ (fuel : Nat) (s : String) (ts : List Token),
      parse_statement (fuel + 1) (Token.Ident s :: Token.Assign :: ts) =
        parse_assign_statement fuel s (Token.Assign :: ts)) ∧
    (∀ (fuel : Nat) (s : String) (t : Token) (ts : List Token), t ≠ Token.Assign →
      parse_statement (fuel + 1) (Token.Ident s :: t :: ts) =
        parse_expression_statement fuel (Token.Ident s) (t :: ts)) ∧
    (∀ (fuel : Nat) (s : String),
      parse_statement (fuel + 1) [Token.Ident s] =
        some (.error ParseError.ExpectedToken, [])) ∧
    (∀ (fuel : Nat) (t : Token) (ts : List Token),
      t ≠ Token.Return → (∀ s, t ≠ Token.Ident s) →
      parse_statement (fuel + 1) (t :: ts) = parse_expression_statement fuel t ts) ∧
    (∀ fuel : Nat,
      parse_statement (fuel + 1) [] = some (.error ParseError.ExpectedToken, [])) := by
  refine ⟨fun _ _ => rfl, fun _ _ _ => rfl, ?_, fun _ _ => rfl, ?_, fun _ => rfl⟩
  · intro fuel s t ts h
    cases t <;> first | exact absurd rfl h | rfl
  · intro fuel t ts h1 h2
    cases t <;> first | exact absurd rfl h1 | exact absurd rfl (h2 _) | rfl

/-- Witness for C7's amended dispatch at `x + y` (identifier not followed by
the assignment punctuation). -/
theorem statement_dispatch_by_leading_token_witness :
    parse_statement 10 [Token.Ident "x", Token.Plus, Token.Ident "y"] =
      parse_expression_statement 9 (Token.Ident "x") [Token.Plus, Token.Ident "y"] :=
  statement_dispatch_by_leading_token.2.2.1 9 "x" Token.Plus [Token.Ident "y"] (by decide)

/-! Error recovery: the statement loop over a stream of classified slices. -/

/-- The statements of the valid slices are one per valid slice. -/
theorem segsStatements_length (segs : List Seg) :
    (segsStatements segs).length = countValid segs := by
  induction segs with
  | nil => rfl
  | cons s rest ih => cases s <;> simp [segsStatements, countValid, ih]

/-- The errors of the invalid slices are one per invalid slice. -/
theorem segsErrors_length (segs : List Seg) :
    (segsErrors segs).length = countInvalid segs := by
  induction segs with
  | nil => rfl
  | cons s rest ih => cases s <;> simp [segsErrors, countInvalid, ih]

/-- One successful step of the statement loop of parse_program. -/
theorem parse_program_cons_ok {f : Nat} {t : Token} {ts ts1 : List Token} {s : Statement}
    (h : parse_statement f (t :: ts) = some (.ok s, ts1)) :
    parse_program (f + 1) (t :: ts) =
      match parse_program f ts1 with
      | none => none
      | some p => some (Program.mk (s :: p.statements) p.parse_errors) := by
  simp only [parse_program, h]

/-- One failing step of the statement loop of parse_program: the error is
recorded and the cursor resynchronised. -/
theorem parse_program_cons_err {f : Nat} {t : Token} {ts ts1 : List Token} {e : ParseError}
    (h : parse_statement f (t :: ts) = some (.error e, ts1)) :
    parse_program (f + 1) (t :: ts) =
      match parse_program f (iterate_to_next_statement ts1) with
      | none => none
      | some p => some (Program.mk p.statements (e :: p.parse_errors)) := by
  simp only [parse_program, h]

/-- The statement loop over the concatenation of correctly classified slices:
valid slices contribute their statements, invalid ones their errors, each side
in the original relative order. -/
theorem parse_program_segs (segs : List Seg) (N : Nat) :
    ∀ fuel, (∀ s ∈ segs, SegOk N s) → segs.length + N + 1 ≤ fuel →
      parse_program fuel (segsTokens segs) =
        some (Program.mk (segsStatements segs) (segsErrors segs)) := by
  induction segs with
  | nil =>
    intro fuel _ hf
    cases fuel with
    | zero => omega
    | succ f => rfl
  | cons s rest ih =>
    intro fuel hok hf
    cases fuel with
    | zero => omega
    | succ f =>
      have hs := hok s (List.mem_cons_self s rest)
      have hrest : ∀ x ∈ rest, SegOk N x := fun x hx => hok x (List.mem_cons_of_mem s hx)
      have hlen : rest.length + N + 1 ≤ f := by
        simp only [List.length_cons] at hf
        omega
      cases s with
      | valid ts stmt =>
        obtain ⟨hne, hparse⟩ := hs
        obtain ⟨t, ts0, rfl⟩ : ∃ t ts0, ts = t :: ts0 := by
          cases ts with
          | nil => exact absurd rfl hne
          | cons t ts0 => exact ⟨t, ts0, rfl⟩
        have hp := hparse (segsTokens rest) f (by omega)
        rw [List.cons_append] at hp
        have hsegs : segsTokens (Seg.valid (t :: ts0) stmt :: rest) =
            t :: (ts0 ++ segsTokens rest) := by
          simp [segsTokens, Seg.tokens]
        rw [hsegs, parse_program_cons_ok hp, ih f hrest (by omega)]
        simp [segsStatements, segsErrors]
      | invalid ts e tail =>
        obtain ⟨hne, hparse, hiter⟩ := hs
        obtain ⟨t, ts0, rfl⟩ : ∃ t ts0, ts = t :: ts0 := by
          cases ts with
          | nil => exact absurd rfl hne
          | cons t ts0 => exact ⟨t, ts0, rfl⟩
        have hp := hparse (segsTokens rest) f (by omega)
        rw [List.cons_append] at hp
        have hsegs : segsTokens (Seg.invalid (t :: ts0) e tail :: rest) =
            t :: (ts0 ++ segsTokens rest) := by
          simp [segsTokens, Seg.tokens]
        rw [hsegs, parse_program_cons_err hp, hiter (segsTokens rest),
          ih f hrest (by omega)]
        simp [segsStatements, segsErrors]

/-- C2 (counterexample to the claim as stated): the stream of `return. 5.` is
one syntactically invalid statement (`return.`, whose expression is missing)
followed by one valid statement (`5.`), each terminated by the period, yet
parse_program yields one error and zero statements — the failed return
statement already consumed its period, so resynchronisation discards the whole
following valid statement. -/
theorem error_recovery_counterexample :
    parse_program 32 [Token.Return, Token.Period, Token.Int "5", Token.Period] =
      some (Program.mk [] [ParseError.NoPrefixExpression Token.Period]) := rfl

/-- C2 (amended): for every stream of N invalid and M valid statements, each
slice terminated by the statement terminator, parse_program returns exactly N
errors and M statements in the original relative order, provided each valid
slice parses consuming exactly its own tokens and each invalid slice fails
with its terminator still unconsumed, so that resynchronisation discards
exactly the remainder of the slice (without that proviso the claim fails, see
the counterexample). -/
theorem error_recovery_segmented (segs : List Seg) (N fuel : Nat)
    (hok : ∀ s ∈ segs, SegOk N s) (hf : segs.length + N + 1 ≤ fuel) :
    parse_program fuel (segsTokens segs) =
      some (Program.mk (segsStatements segs) (segsErrors segs)) ∧
    (segsStatements segs).length = countValid segs ∧
    (segsErrors segs).length = countInvalid segs :=
  ⟨parse_program_segs segs N fuel hok hf, segsStatements_length segs, segsErrors_length segs⟩

/-- Witness for C2's amended theorem on the concrete mixed stream
`+. 5. *. true.`: two errors and two statements, in order. -/
theorem error_recovery_segmented_witness :
    parse_program 16 (segsTokens mixedSegs) =
      some (Program.mk
        [Statement.ExpressionStatement (Expression.IntegerLiteral 5),
         Statement.ExpressionStatement (Expression.BooleanLiteral true)]
        [ParseError.NoPrefixExpression Token.Plus,
         ParseError.NoPrefixExpression Token.Multiply]) := by
  have hok : ∀ s ∈ mixedSegs, SegOk 8 s := by
    intro s hs
    simp only [mixedSegs, List.mem_cons, List.not_mem_nil, or_false] at hs
    rcases hs with rfl | rfl | rfl | rfl
    · refine ⟨by simp, ?_, fun rest => rfl⟩
      intro rest fuel hfl
      obtain ⟨k, rfl⟩ : ∃ k, fuel = k + 8 := ⟨fuel - 8, by omega⟩
      simp [parse_statement, parse_expression_statement, parse_expression,
        parse_prefix_expression, andThen]
    · refine ⟨by simp, ?_⟩
      intro rest fuel hfl
      obtain ⟨k, rfl⟩ : ∃ k, fuel = k + 8 := ⟨fuel - 8, by omega⟩
      have hp5 : parseI32 "5" = some 5 := rfl
      simp [parse_statement, parse_expression_statement, parse_expression,
        parse_prefix_expression, parse_expression_loop, andThen, hp5,
        next_token_has_infix_operator, has_infix_operator, optional_expect_peek]
    · refine ⟨by simp, ?_, fun rest => rfl⟩
      intro rest fuel hfl
      obtain ⟨k, rfl⟩ : ∃ k, fuel = k + 8 := ⟨fuel - 8, by omega⟩
      simp [parse_statement, parse_expression_statement, parse_expression,
        parse_prefix_expression, andThen]
    · refine ⟨by simp, ?_⟩
      intro rest fuel hfl
      obtain ⟨k, rfl⟩ : ∃ k, fuel = k + 8 := ⟨fuel - 8, by omega⟩
      simp [parse_statement, parse_expression_statement, parse_expression,
        parse_prefix_expression, parse_expression_loop, andThen,
        next_token_has_infix_operator, has_infix_operator, optional_expect_peek]
  exact (error_recovery_segmented mixedSegs 8 16 hok (by decide)).1

/-! Cursor-progress bounds: no parsing function makes the token stream longer,
and a statement parse on a nonempty stream strictly shrinks it.  These are the
facts that make the Rust statement loop terminate. -/

/-- A bound on the remaining stream weakens. -/
theorem RestLe.mono {α : Type} {r : PRes α} {n m : Nat} (h : RestLe r n) (hm : n ≤ m) :
    RestLe r m :=
  fun x ts hh => (h x ts hh).trans hm

/-- Fuel exhaustion satisfies every bound. -/
theorem restLe_none {α : Type} (n : Nat) : RestLe (none : PRes α) n :=
  fun _ _ h => nomatch h

/-- A directly returned outcome satisfies the bound of its own stream. -/
theorem restLe_pure {α : Type} (x : Except ParseError α) (ts : List Token) {n : Nat}
    (h : ts.length ≤ n) : RestLe (some (x, ts) : PRes α) n := by
  intro y ts' hh
  obtain ⟨rfl, rfl⟩ := Prod.mk.inj (Option.some.inj hh)
  exact h

/-- A lifted token operation satisfies the bound of its resulting stream. -/
theorem restLe_liftT {α : Type} (p : Except ParseError α × List Token) {n : Nat}
    (h : p.2.length ≤ n) : RestLe (liftT p) n := by
  obtain ⟨a, ts⟩ := p
  exact restLe_pure a ts h

/-- Sequencing preserves the bound: if the first step is bounded by `n` and the
continuation never grows its own input stream, the whole is bounded by `n`. -/
theorem restLe_andThen {α β : Type} {r : PRes α} {f : α → List Token → PRes β} {n : Nat}
    (hr : RestLe r n)
    (hf : ∀ a ts', r = some (.ok a, ts') → RestLe (f a ts') ts'.length) :
    RestLe (andThen r f) n := by
  intro x out h
  cases hrr : r with
  | none => rw [hrr] at h; exact nomatch h
  | some p =>
    obtain ⟨res, ts⟩ := p
    cases res with
    | error e =>
      rw [hrr] at h
      obtain ⟨h1, h2⟩ := Prod.mk.inj (Option.some.inj h)
      rw [← h2]
      exact hr _ _ hrr
    | ok a =>
      rw [hrr] at h
      exact ((hf a ts hrr) x out h).trans (hr _ _ hrr)

/-- `expect` never grows the stream. -/
theorem expect_rest_le (ts : List Token) : (expect ts).2.length ≤ ts.length := by
  cases ts <;> simp [expect]

/-- `expect_peek` never grows the stream. -/
theorem expect_peek_rest_le (t : Token) (ts : List Token) :
    (expect_peek t ts).2.length ≤ ts.length := by
  cases ts with
  | nil => simp [expect_peek]
  | cons x rest =>
    by_cases hx : x = t <;> simp [expect_peek, hx]

/-- `parse_literal` never grows the stream. -/
theorem parse_literal_rest_le (ts : List Token) :
    (parse_literal ts).2.length ≤ ts.length := by
  cases ts with
  | nil => simp [parse_literal]
  | cons x rest => cases x <;> simp [parse_literal]

/-- Closing a grouped expression never grows the stream. -/
theorem restLe_close_grouped (ge : Except ParseError Expression) (ts : List Token) :
    RestLe (close_grouped_expression ge ts) ts.length := by
  intro x out h
  unfold close_grouped_expression at h
  have hle := expect_peek_rest_le Token.RParen ts
  cases hep : expect_peek Token.RParen ts with
  | mk res ts1 =>
    rw [hep] at h hle
    cases res with
    | error e =>
      obtain ⟨h1, h2⟩ := Prod.mk.inj (Option.some.inj h)
      rw [← h2]
      exact hle
    | ok u =>
      obtain ⟨h1, h2⟩ := Prod.mk.inj (Option.some.inj h)
      rw [← h2]
      exact hle

/-- `optional_expect_peek` never grows the stream. -/
theorem optional_expect_peek_rest_le (t : Token) (ts : List Token) :
    (optional_expect_peek t ts).length ≤ ts.length := by
  cases ts with
  | nil => simp [optional_expect_peek]
  | cons x rest =>
    by_cases hx : x = t <;> simp [optional_expect_peek, hx]

/-- Resynchronisation only discards tokens. -/
theorem iterate_to_next_statement_le (ts : List Token) :
    (iterate_to_next_statement ts).length ≤ ts.length := by
  induction ts with
  | nil => simp [iterate_to_next_statement]
  | cons t rest ih =>
    cases t <;> simp [iterate_to_next_statement] <;> omega

/-- The cursor-progress invariant for all parsing functions at every fuel:
the remaining stream of any outcome is never longer than the input stream. -/
theorem parser_rest_bounds : ∀ fuel : Nat,
    (∀ ts, RestLe (parse_statement fuel ts) ts.length) ∧
    (∀ s ts, RestLe (parse_assign_statement fuel s ts) ts.length) ∧
    (∀ ts, RestLe (parse_return_statement fuel ts) ts.length) ∧
    (∀ t ts, RestLe (parse_expression_statement fuel t ts) ts.length) ∧
    (∀ t p ts, RestLe (parse_expression fuel t p ts) ts.length) ∧
    (∀ l p ts, RestLe (parse_expression_loop fuel l p ts) ts.length) ∧
    (∀ t ts, RestLe (parse_prefix_expression fuel t ts) ts.length) ∧
    (∀ l t ts, RestLe (parse_infix_expression fuel l t ts) ts.length) ∧
    (∀ ts, RestLe (create_grouped_expression fuel ts) ts.length) ∧
    (∀ ts, RestLe (parse_if_expression fuel ts) ts.length) ∧
    (∀ ts, RestLe (parse_if_alternative fuel ts) ts.length) ∧
    (∀ ts, RestLe (parse_function_literal fuel ts) ts.length) ∧
    (∀ ts, RestLe (parse_function_parameters fuel ts) ts.length) ∧
    (∀ ts, RestLe (parse_function_parameters_step fuel ts) ts.length) ∧
    (∀ ts, RestLe (parse_blockstatement fuel ts) ts.length) ∧
    (∀ o ts, RestLe (create_prefix_expression fuel o ts) ts.length) := by
  intro fuel
  induction fuel with
  | zero =>
    refine ⟨?_, ?_, ?_, ?_, ?_, ?_, ?_, ?_, ?_, ?_, ?_, ?_, ?_, ?_, ?_, ?_⟩ <;>
      (intros; intro x ts' h; exact nomatch h)
  | succ f ih =>
    obtain ⟨ihStmt, ihAssign, ihReturn, ihExprStmt, ihExpr, ihLoop, ihPrefix, ihInfix,
      ihGrp, ihIf, ihAlt, ihFl, ihParams, ihStep, ihBlock, ihCpe⟩ := ih
    refine ⟨?_, ?_, ?_, ?_, ?_, ?_, ?_, ?_, ?_, ?_, ?_, ?_, ?_, ?_, ?_, ?_⟩
    · -- parse_statement
      intro ts
      cases ts with
      | nil => exact restLe_pure _ _ (Nat.le_refl 0)
      | cons t rest =>
        cases t with
        | Return => exact (ihReturn rest).mono (by simp)
        | Ident s =>
          cases rest with
          | nil => exact restLe_pure _ _ (by simp)
          | cons r rrest =>
            cases r <;>
              first
              | exact (ihAssign s (Token.Assign :: rrest)).mono (by simp)
              | exact (ihExprStmt (Token.Ident s) _).mono (by simp)
        | _ => exact (ihExprStmt _ rest).mono (by simp)
    · -- parse_assign_statement
      intro s ts
      refine restLe_andThen (restLe_liftT _ (expect_peek_rest_le Token.Assign ts)) ?_
      intro _ ts1 _
      refine restLe_andThen (restLe_liftT _ (expect_rest_le ts1)) ?_
      intro nt ts2 _
      refine restLe_andThen (ihExpr nt Precedence.Lowest ts2) ?_
      intro e ts3 _
      refine restLe_andThen (restLe_liftT _ (expect_peek_rest_le Token.Period ts3)) ?_
      intro _ ts4 _
      exact restLe_pure _ _ (Nat.le_refl _)
    · -- parse_return_statement
      intro ts
      refine restLe_andThen (restLe_liftT _ (expect_rest_le ts)) ?_
      intro nt ts1 _
      refine restLe_andThen (ihExpr nt Precedence.Lowest ts1) ?_
      intro e ts2 _
      refine restLe_andThen (restLe_liftT _ (expect_peek_rest_le Token.Period ts2)) ?_
      intro _ ts3 _
      exact restLe_pure _ _ (Nat.le_refl _)
    · -- parse_expression_statement
      intro t ts
      refine restLe_andThen (ihExpr t Precedence.Lowest ts) ?_
      intro e ts1 _
      exact restLe_pure _ _ (optional_expect_peek_rest_le Token.Period ts1)
    · -- parse_expression
      intro t p ts
      refine restLe_andThen (ihPrefix t ts) ?_
      intro left ts1 _
      exact ihLoop left p ts1
    · -- parse_expression_loop
      intro l p ts
      show RestLe (parse_expression_loop (f + 1) l p ts) ts.length
      rw [parse_expression_loop]
      split
      · refine restLe_andThen (restLe_liftT _ (expect_rest_le ts)) ?_
        intro nt ts1 _
        refine restLe_andThen (ihInfix l nt ts1) ?_
        intro l2 ts2 _
        exact ihLoop l2 p ts2
      · exact restLe_pure _ _ (Nat.le_refl _)
    · -- parse_prefix_expression
      intro t ts
      cases t <;>
        first
        | exact ihCpe _ ts
        | exact ihGrp ts
        | exact ihIf ts
        | exact ihFl ts
        | exact restLe_pure _ _ (Nat.le_refl _)
        | skip
      case Int lit =>
        show RestLe (match parseI32 lit with
          | some parsed_number => some (.ok (Expression.IntegerLiteral parsed_number), ts)
          | none => some (.error (ParseError.ParseIntegerError (Token.Int lit)), ts)) ts.length
        cases parseI32 lit <;> exact restLe_pure _ _ (Nat.le_refl _)
    · -- parse_infix_expression
      intro l t ts
      show RestLe (parse_infix_expression (f + 1) l t ts) ts.length
      rw [parse_infix_expression]
      split
      · refine restLe_andThen (restLe_liftT _ (expect_rest_le ts)) ?_
        intro nt ts1 _
        refine restLe_andThen (ihExpr nt _ ts1) ?_
        intro right ts2 _
        exact restLe_pure _ _ (Nat.le_refl _)
      · exact restLe_pure _ _ (Nat.le_refl _)
    · -- create_grouped_expression
      intro ts
      refine restLe_andThen (restLe_liftT _ (expect_rest_le ts)) ?_
      intro nt ts1 _
      intro x out h
      cases hpe : parse_expression f nt Precedence.Lowest ts1 with
      | none => rw [hpe] at h; exact nomatch h
      | some p =>
        obtain ⟨ge, ts2⟩ := p
        rw [hpe] at h
        have h2 : ts2.length ≤ ts1.length := ihExpr nt Precedence.Lowest ts1 ge ts2 hpe
        exact (restLe_close_grouped ge ts2 x out h).trans h2
    · -- parse_if_expression
      intro ts
      refine restLe_andThen (restLe_liftT _ (expect_rest_le ts)) ?_
      intro nt ts1 _
      refine restLe_andThen (ihExpr nt Precedence.Lowest ts1) ?_
      intro cond ts2 _
      refine restLe_andThen (restLe_liftT _ (expect_peek_rest_le Token.Assign ts2)) ?_
      intro _ ts3 _
      refine restLe_andThen (ihBlock ts3) ?_
      intro csq ts4 _
      refine restLe_andThen (ihAlt ts4) ?_
      intro alt ts5 _
      exact restLe_pure _ _ (Nat.le_refl _)
    · -- parse_if_alternative
      intro ts
      cases ts with
      | nil => exact restLe_pure _ _ (Nat.le_refl _)
      | cons t rest =>
        cases t <;>
          first
          | exact restLe_pure _ _ (by simp)
          | skip
        case Else =>
          refine RestLe.mono ?_ (by simp : rest.length ≤ (Token.Else :: rest).length)
          refine restLe_andThen (restLe_liftT _ (expect_peek_rest_le Token.Assign rest)) ?_
          intro _ ts1 _
          refine restLe_andThen (ihBlock ts1) ?_
          intro blk ts2 _
          refine restLe_andThen (restLe_liftT _ (expect_peek_rest_le Token.Lasagna ts2)) ?_
          intro _ ts3 _
          exact restLe_pure _ _ (Nat.le_refl _)
    · -- parse_function_literal
      intro ts
      refine restLe_andThen (ihParams ts) ?_
      intro params ts1 _
      refine restLe_andThen (restLe_liftT _ (expect_peek_rest_le Token.Assign ts1)) ?_
      intro _ ts2 _
      refine restLe_andThen (ihBlock ts2) ?_
      intro body ts3 _
      refine restLe_andThen (restLe_liftT _ (expect_peek_rest_le Token.Lasagna ts3)) ?_
      intro _ ts4 _
      exact restLe_pure _ _ (Nat.le_refl _)
    · -- parse_function_parameters
      intro ts
      cases ts with
      | nil => exact restLe_pure _ _ (Nat.le_refl _)
      | cons t rest =>
        cases t <;>
          first
          | exact (ihStep rest).mono (by simp)
          | exact restLe_pure _ _ (by simp)
    · -- parse_function_parameters_step
      intro ts
      cases ts with
      | nil => exact restLe_pure _ _ (Nat.le_refl _)
      | cons t rest =>
        cases t <;>
          first
          | exact restLe_pure _ _ (by simp)
          | (refine restLe_andThen ((ihParams rest).mono (by simp)) ?_
             intro params ts2 _
             exact restLe_pure _ _ (Nat.le_refl _))
    · -- parse_blockstatement
      intro ts
      show RestLe (parse_blockstatement (f + 1) ts) ts.length
      rw [parse_blockstatement]
      split
      · exact restLe_pure _ _ (Nat.le_refl _)
      · refine restLe_andThen (ihStmt ts) ?_
        intro s ts1 _
        refine restLe_andThen (ihBlock ts1) ?_
        intro blk ts2 _
        exact restLe_pure _ _ (Nat.le_refl _)
    · -- create_prefix_expression
      intro o ts
      cases ts with
      | nil => exact restLe_pure _ _ (Nat.le_refl _)
      | cons t rest =>
        refine RestLe.mono ?_ (by simp : rest.length ≤ (t :: rest).length)
        refine restLe_andThen (ihExpr t Precedence.PrefixOp rest) ?_
        intro right ts1 _
        exact restLe_pure _ _ (Nat.le_refl _)

/-- A statement parse on a nonempty stream strictly shrinks it: parse_statement
begins by consuming the leading token (which the caller's loop guard peeked),
and no sub-parser ever grows the stream. -/
theorem parse_statement_strict {fuel : Nat} {ts ts' : List Token}
    {x : Except ParseError Statement} (hne : ts ≠ [])
    (h : parse_statement fuel ts = some (x, ts')) : ts'.length < ts.length := by
  cases fuel with
  | zero => exact nomatch h
  | succ f =>
    obtain ⟨bStmt, bAssign, bReturn, bExprStmt, bExpr, bLoop, bPrefix, bInfix,
      bGrp, bIf, bAlt, bFl, bParams, bStep, bBlock, bCpe⟩ := parser_rest_bounds f
    cases ts with
    | nil => exact absurd rfl hne
    | cons t rest =>
      cases t <;>
        first
        | exact Nat.lt_succ_of_le (bReturn rest x ts' h)
        | exact Nat.lt_succ_of_le (bExprStmt _ rest x ts' h)
        | skip
      case Ident s =>
        cases rest with
        | nil =>
          obtain ⟨h1, h2⟩ := Prod.mk.inj (Option.some.inj h)
          rw [← h2]
          simp
        | cons r rrest =>
          cases r <;>
            first
            | exact Nat.lt_succ_of_le (bAssign s (Token.Assign :: rrest) x ts' h)
            | exact Nat.lt_succ_of_le (bExprStmt (Token.Ident s) _ x ts' h)

/-! Fuel sufficiency: with fuel at least linear in the stream length, no
parsing function exhausts its fuel, so the fuel embedding is a faithful image
of the Rust recursion, which therefore terminates. -/

/-- A lifted token operation never exhausts fuel. -/
theorem liftT_ne_none {α : Type} (p : Except ParseError α × List Token) :
    liftT p ≠ none := by
  simp [liftT]

/-- Sequencing never exhausts fuel when neither side does. -/
theorem andThen_ne_none {α β : Type} {r : PRes α} {f : α → List Token → PRes β}
    (hr : r ≠ none)
    (hf : ∀ a ts', r = some (.ok a, ts') → f a ts' ≠ none) :
    andThen r f ≠ none := by
  cases hrr : r with
  | none => exact absurd hrr hr
  | some p =>
    obtain ⟨res, ts⟩ := p
    cases res with
    | error e => exact fun hcon => nomatch hcon
    | ok a => exact fun hcon => hf a ts hrr hcon

/-- Closing a grouped expression never exhausts fuel. -/
theorem close_grouped_ne_none (ge : Except ParseError Expression) (ts : List Token) :
    close_grouped_expression ge ts ≠ none := by
  unfold close_grouped_expression
  cases expect_peek Token.RParen ts with
  | mk res ts1 => cases res <;> exact fun hcon => nomatch hcon

/-- A successful `expect` consumes exactly one token. -/
theorem expect_ok_length {ts ts' : List Token} {t : Token}
    (h : expect ts = (.ok t, ts')) : ts'.length + 1 = ts.length := by
  cases ts with
  | nil => exact nomatch congrArg Prod.fst h
  | cons a rest =>
    obtain ⟨h1, h2⟩ := Prod.mk.inj h
    rw [← h2]
    rfl

/-- A successful `expect_peek` consumes exactly one token. -/
theorem expect_peek_ok_length {t : Token} {ts ts' : List Token} {u : Unit}
    (h : expect_peek t ts = (.ok u, ts')) : ts'.length + 1 = ts.length := by
  cases ts with
  | nil => exact nomatch congrArg Prod.fst h
  | cons x rest =>
    by_cases hx : x = t
    · have he : expect_peek t (x :: rest) = (.ok (), rest) := by simp [expect_peek, hx]
      rw [he] at h
      obtain ⟨h1, h2⟩ := Prod.mk.inj h
      rw [← h2]
      rfl
    · have he : expect_peek t (x :: rest) =
        (.error (ParseError.UnexpectedToken (TokenExpectation.SingleExpectation t) (some x)),
          x :: rest) := by simp [expect_peek, hx]
      rw [he] at h
      exact nomatch congrArg Prod.fst h

/-- A successful `parse_literal` consumes exactly one token. -/
theorem parse_literal_ok_length {ts ts' : List Token} {i : Identifier}
    (h : parse_literal ts = (.ok i, ts')) : ts'.length + 1 = ts.length := by
  cases ts with
  | nil => exact nomatch congrArg Prod.fst h
  | cons x rest =>
    cases x <;>
      (obtain ⟨h1, h2⟩ := Prod.mk.inj h
       rw [← h2]
       rfl)

/-- The Pratt loop guard only holds on a nonempty stream. -/
theorem infix_guard_shape {ts : List Token}
    (h : next_token_has_infix_operator ts = true) : ∃ t rest, ts = t :: rest := by
  cases ts with
  | nil => simp [next_token_has_infix_operator] at h
  | cons t rest => exact ⟨t, rest, rfl⟩

/-- Fuel sufficiency for every parsing function: with fuel at least
`8 * (stream length) + (a per-function constant)`, the function never
exhausts its fuel.  The constants absorb the bounded chains of calls between
two consumptions of a token. -/
theorem parser_fuel_sufficient : ∀ fuel : Nat,
    (∀ ts, 8 * ts.length + 8 ≤ fuel → parse_statement fuel ts ≠ none) ∧
    (∀ s ts, 8 * ts.length + 15 ≤ fuel → parse_assign_statement fuel s ts ≠ none) ∧
    (∀ ts, 8 * ts.length + 15 ≤ fuel → parse_return_statement fuel ts ≠ none) ∧
    (∀ t ts, 8 * ts.length + 15 ≤ fuel → parse_expression_statement fuel t ts ≠ none) ∧
    (∀ t p ts, 8 * ts.length + 14 ≤ fuel → parse_expression fuel t p ts ≠ none) ∧
    (∀ l p ts, 8 * ts.length + 13 ≤ fuel → parse_expression_loop fuel l p ts ≠ none) ∧
    (∀ t ts, 8 * ts.length + 13 ≤ fuel → parse_prefix_expression fuel t ts ≠ none) ∧
    (∀ l t ts, 8 * ts.length + 8 ≤ fuel → parse_infix_expression fuel l t ts ≠ none) ∧
    (∀ ts, 8 * ts.length + 12 ≤ fuel → create_grouped_expression fuel ts ≠ none) ∧
    (∀ ts, 8 * ts.length + 12 ≤ fuel → parse_if_expression fuel ts ≠ none) ∧
    (∀ ts, 8 * ts.length + 9 ≤ fuel → parse_if_alternative fuel ts ≠ none) ∧
    (∀ ts, 8 * ts.length + 12 ≤ fuel → parse_function_literal fuel ts ≠ none) ∧
    (∀ ts, 8 * ts.length + 11 ≤ fuel → parse_function_parameters fuel ts ≠ none) ∧
    (∀ ts, 8 * ts.length + 11 ≤ fuel → parse_function_parameters_step fuel ts ≠ none) ∧
    (∀ ts, 8 * ts.length + 9 ≤ fuel → parse_blockstatement fuel ts ≠ none) ∧
    (∀ o ts, 8 * ts.length + 12 ≤ fuel → create_prefix_expression fuel o ts ≠ none) := by
  intro fuel
  induction fuel with
  | zero =>
    refine ⟨?_, ?_, ?_, ?_, ?_, ?_, ?_, ?_, ?_, ?_, ?_, ?_, ?_, ?_, ?_, ?_⟩ <;>
      (intros; omega)
  | succ f ih =>
    obtain ⟨sStmt, sAssign, sReturn, sExprStmt, sExpr, sLoop, sPrefix, sInfix,
      sGrp, sIf, sAlt, sFl, sParams, sStep, sBlock, sCpe⟩ := ih
    obtain ⟨bStmt, bAssign, bReturn, bExprStmt, bExpr, bLoop, bPrefix, bInfix,
      bGrp, bIf, bAlt, bFl, bParams, bStep, bBlock, bCpe⟩ := parser_rest_bounds f
    refine ⟨?_, ?_, ?_, ?_, ?_, ?_, ?_, ?_, ?_, ?_, ?_, ?_, ?_, ?_, ?_, ?_⟩
    · -- parse_statement
      intro ts hfl
      cases ts with
      | nil => exact Option.some_ne_none _
      | cons t rest =>
        simp only [List.length_cons] at hfl
        cases t <;>
          first
          | exact sReturn rest (by omega)
          | exact sExprStmt _ rest (by omega)
          | skip
        case Ident s =>
          cases rest with
          | nil => exact Option.some_ne_none _
          | cons r rrest =>
            simp only [List.length_cons] at hfl
            cases r <;>
              first
              | exact sAssign s (Token.Assign :: rrest) (by simp; omega)
              | exact sExprStmt (Token.Ident s) _ (by simp; omega)
    · -- parse_assign_statement
      intro s ts hfl
      apply andThen_ne_none (liftT_ne_none _)
      intro a ts1 h1
      have e1 := expect_peek_ok_length (Option.some.inj h1)
      apply andThen_ne_none (liftT_ne_none _)
      intro nt ts2 h2
      have e2 := expect_ok_length (Option.some.inj h2)
      apply andThen_ne_none (sExpr nt Precedence.Lowest ts2 (by omega))
      intro e3 ts3 h3
      apply andThen_ne_none (liftT_ne_none _)
      intro u ts4 h4
      exact Option.some_ne_none _
    · -- parse_return_statement
      intro ts hfl
      apply andThen_ne_none (liftT_ne_none _)
      intro nt ts1 h1
      have e1 := expect_ok_length (Option.some.inj h1)
      apply andThen_ne_none (sExpr nt Precedence.Lowest ts1 (by omega))
      intro e2 ts2 h2
      apply andThen_ne_none (liftT_ne_none _)
      intro u ts3 h3
      exact Option.some_ne_none _
    · -- parse_expression_statement
      intro t ts hfl
      apply andThen_ne_none (sExpr t Precedence.Lowest ts (by omega))
      intro e1 ts1 h1
      exact Option.some_ne_none _
    · -- parse_expression
      intro t p ts hfl
      apply andThen_ne_none (sPrefix t ts (by omega))
      intro left ts1 h1
      have b1 := bPrefix t ts _ _ h1
      exact sLoop left p ts1 (by omega)
    · -- parse_expression_loop
      intro l p ts hfl
      show parse_expression_loop (f + 1) l p ts ≠ none
      rw [parse_expression_loop]
      split
      · rename_i hg
        rw [Bool.and_eq_true] at hg
        obtain ⟨t0, rest0, rfl⟩ := infix_guard_shape hg.1
        simp only [List.length_cons] at hfl
        apply andThen_ne_none (liftT_ne_none _)
        intro nt ts1 h1
        have e1 := expect_ok_length (Option.some.inj h1)
        apply andThen_ne_none (sInfix l nt ts1 (by simp at e1; omega))
        intro l2 ts2 h2
        have b2 := bInfix l nt ts1 _ _ h2
        exact sLoop l2 p ts2 (by simp at e1; omega)
      · exact Option.some_ne_none _
    · -- parse_prefix_expression
      intro t ts hfl
      cases t <;>
        first
        | exact sCpe _ ts (by omega)
        | exact sGrp ts (by omega)
        | exact sIf ts (by omega)
        | exact sFl ts (by omega)
        | exact Option.some_ne_none _
        | skip
      case Int lit =>
        show (match parseI32 lit with
          | some parsed_number =>
            (some (Except.ok (Expression.IntegerLiteral parsed_number), ts) : PRes Expression)
          | none =>
            some (Except.error (ParseError.ParseIntegerError (Token.Int lit)), ts)) ≠ none
        cases parseI32 lit <;> exact Option.some_ne_none _
    · -- parse_infix_expression
      intro l t ts hfl
      show parse_infix_expression (f + 1) l t ts ≠ none
      rw [parse_infix_expression]
      split
      · apply andThen_ne_none (liftT_ne_none _)
        intro nt ts1 h1
        have e1 := expect_ok_length (Option.some.inj h1)
        apply andThen_ne_none (sExpr nt _ ts1 (by omega))
        intro right ts2 h2
        exact Option.some_ne_none _
      · exact Option.some_ne_none _
    · -- create_grouped_expression
      intro ts hfl
      apply andThen_ne_none (liftT_ne_none _)
      intro nt ts1 h1
      have e1 := expect_ok_length (Option.some.inj h1)
      intro hcon
      cases hpe : parse_expression f nt Precedence.Lowest ts1 with
      | none => exact absurd hpe (sExpr nt Precedence.Lowest ts1 (by omega))
      | some p =>
        obtain ⟨ge, ts2⟩ := p
        rw [hpe] at hcon
        exact close_grouped_ne_none ge ts2 hcon
    · -- parse_if_expression
      intro ts hfl
      apply andThen_ne_none (liftT_ne_none _)
      intro nt ts1 h1
      have e1 := expect_ok_length (Option.some.inj h1)
      apply andThen_ne_none (sExpr nt Precedence.Lowest ts1 (by omega))
      intro cond ts2 h2
      have b2 := bExpr nt Precedence.Lowest ts1 _ _ h2
      apply andThen_ne_none (liftT_ne_none _)
      intro u ts3 h3
      have e3 := expect_peek_ok_length (Option.some.inj h3)
      apply andThen_ne_none (sBlock ts3 (by omega))
      intro csq ts4 h4
      have b4 := bBlock ts3 _ _ h4
      apply andThen_ne_none (sAlt ts4 (by omega))
      intro alt ts5 h5
      exact Option.some_ne_none _
    · -- parse_if_alternative
      intro ts hfl
      cases ts with
      | nil => exact Option.some_ne_none _
      | cons t rest =>
        simp only [List.length_cons] at hfl
        cases t <;>
          first
          | exact Option.some_ne_none _
          | skip
        case Else =>
          apply andThen_ne_none (liftT_ne_none _)
          intro u ts1 h1
          have e1 := expect_peek_ok_length (Option.some.inj h1)
          apply andThen_ne_none (sBlock ts1 (by omega))
          intro blk ts2 h2
          apply andThen_ne_none (liftT_ne_none _)
          intro u2 ts3 h3
          exact Option.some_ne_none _
    · -- parse_function_literal
      intro ts hfl
      apply andThen_ne_none (sParams ts (by omega))
      intro params ts1 h1
      have b1 := bParams ts _ _ h1
      apply andThen_ne_none (liftT_ne_none _)
      intro u ts2 h2
      have e2 := expect_peek_ok_length (Option.some.inj h2)
      apply andThen_ne_none (sBlock ts2 (by omega))
      intro body ts3 h3
      apply andThen_ne_none (liftT_ne_none _)
      intro u2 ts4 h4
      exact Option.some_ne_none _
    · -- parse_function_parameters
      intro ts hfl
      cases ts with
      | nil => exact Option.some_ne_none _
      | cons t rest =>
        simp only [List.length_cons] at hfl
        cases t <;>
          first
          | exact sStep rest (by omega)
          | exact Option.some_ne_none _
    · -- parse_function_parameters_step
      intro ts hfl
      cases ts with
      | nil => exact Option.some_ne_none _
      | cons t rest =>
        simp only [List.length_cons] at hfl
        cases t <;>
          first
          | exact Option.some_ne_none _
          | (apply andThen_ne_none (sParams rest (by omega))
             intro params ts2 h2
             exact Option.some_ne_none _)
    · -- parse_blockstatement
      intro ts hfl
      show parse_blockstatement (f + 1) ts ≠ none
      rw [parse_blockstatement]
      split
      · exact Option.some_ne_none _
      · cases ts with
        | nil =>
          apply andThen_ne_none (sStmt [] (by simp; omega))
          intro s ts1 h1
          cases f with
          | zero => exact nomatch h1
          | succ f2 => exact nomatch congrArg Prod.fst (Option.some.inj h1)
        | cons t0 rest0 =>
          simp only [List.length_cons] at hfl
          apply andThen_ne_none (sStmt (t0 :: rest0) (by simp; omega))
          intro s ts1 h1
          have hst := parse_statement_strict (by simp) h1
          simp only [List.length_cons] at hst
          apply andThen_ne_none (sBlock ts1 (by omega))
          intro blk ts2 h2
          exact Option.some_ne_none _
    · -- create_prefix_expression
      intro o ts hfl
      cases ts with
      | nil => exact Option.some_ne_none _
      | cons t rest =>
        simp only [List.length_cons] at hfl
        apply andThen_ne_none (sExpr t Precedence.PrefixOp rest (by omega))
        intro right ts1 h1
        exact Option.some_ne_none _

/-- parse_program never exhausts a fuel linear in the stream length: its loop
runs at most once per leading token, parse_statement strictly shrinks the
stream, and resynchronisation only discards tokens. -/
theorem parse_program_ne_none : ∀ (fuel : Nat) (ts : List Token),
    8 * ts.length + 10 ≤ fuel → parse_program fuel ts ≠ none := by
  intro fuel
  induction fuel with
  | zero => intro ts h; omega
  | succ f ih =>
    intro ts hfl
    cases ts with
    | nil => exact Option.some_ne_none _
    | cons t rest =>
      simp only [List.length_cons] at hfl
      obtain ⟨sStmt, _⟩ := parser_fuel_sufficient f
      cases hps : parse_statement f (t :: rest) with
      | none => exact absurd hps (sStmt (t :: rest) (by simp; omega))
      | some p =>
        obtain ⟨res, ts1⟩ := p
        have hlt : ts1.length < (t :: rest).length := parse_statement_strict (by simp) hps
        simp only [List.length_cons] at hlt
        cases res with
        | ok s =>
          rw [parse_program_cons_ok hps]
          cases hpp : parse_program f ts1 with
          | none => exact absurd hpp (ih ts1 (by omega))
          | some q => exact Option.some_ne_none _
        | error e =>
          rw [parse_program_cons_err hps]
          have hle := iterate_to_next_statement_le ts1
          cases hpp : parse_program f (iterate_to_next_statement ts1) with
          | none => exact absurd hpp (ih _ (by omega))
          | some q => exact Option.some_ne_none _

/-- C10: parse_program terminates on every finite token stream — each
iteration of its statement loop strictly shrinks the remaining stream, because
parse_statement begins by consuming a token and never grows the stream, and on
failure the resynchronisation only discards further tokens; consequently a
fuel linear in the stream length is never exhausted, so the fueled embedding
computes the total function the Rust loop computes. -/
theorem parse_program_terminates :
    (∀ (fuel : Nat) (ts ts' : List Token) (x : Except ParseError Statement),
      parse_statement fuel ts = some (x, ts') →
      ts'.length ≤ ts.length ∧ (ts ≠ [] → ts'.length < ts.length)) ∧
    (∀ ts : List Token, (iterate_to_next_statement ts).length ≤ ts.length) ∧
    (∀ (fuel : Nat) (ts : List Token), 8 * ts.length + 10 ≤ fuel →
      parse_program fuel ts ≠ none) := by
  refine ⟨?_, iterate_to_next_statement_le, parse_program_ne_none⟩
  intro fuel ts ts' x h
  exact ⟨(parser_rest_bounds fuel).1 ts x ts' h,
    fun hne => parse_statement_strict hne h⟩

/-- Witness for C10: the strict shrink at a concrete statement, the
resynchronisation bound at a concrete stream, and fuel sufficiency for a
concrete program of four tokens. -/
theorem parse_program_terminates_witness :
    (([] : List Token).length < [Token.True].length) ∧
    (iterate_to_next_statement [Token.Plus, Token.Period]).length ≤ 2 ∧
    parse_program 42 [Token.Int "5", Token.Period, Token.Plus, Token.Period] ≠ none := by
  refine ⟨?_, ?_, ?_⟩
  · exact (parse_program_terminates.1 5 [Token.True] []
      (.ok (Statement.ExpressionStatement (Expression.BooleanLiteral true))) rfl).2
      (by simp)
  · exact parse_program_terminates.2.1 [Token.Plus, Token.Period]
  · exact parse_program_terminates.2.2 42
      [Token.Int "5", Token.Period, Token.Plus, Token.Period] (by decide)
